import Mathlib

/-!
# SyntheticWebMonitoring: Core / Agent / Worker protocol

A shallow embedding of `Common.h`, `Core.cpp` and `Agent.cpp`.

* `int32_t` values are `Int`; every `++` on an `int32_t` goes through `wrap32`.
* `char[STRING_LENGTH]` arrays are `CharArray`: exactly 128 characters.
* System calls are not executed: a function returns the list of `write` calls it
  issues, and takes what `read`, `poll` and the probe return as arguments.
* A step whose behaviour C++ leaves undefined (a `strcpy` that does not fit its
  destination, an index outside a `vector`) yields `none`.
-/

set_option linter.dupNamespace false

namespace SyntheticWebMonitoring

/-! ## Common.h -/

/-- Maximum job an agent can handle. -/
def MAX_AGENT_WORKER : Int := 5

/-- Maximum number of Agent a Core need to manage. -/
def MAX_AGENT : Int := 3

/-- Size of the `url` and `message` arrays. -/
def STRING_LENGTH : Nat := 128

/-- The string terminator. -/
def NUL : Char := Char.ofNat 0

/-- Two's-complement reduction of an integer to the `int32_t` range. -/
def wrap32 (x : Int) : Int := (x + 2147483648) % 4294967296 - 2147483648

/-- A `char[STRING_LENGTH]` array. -/
structure CharArray where
  bytes : List Char
  size_eq : bytes.length = STRING_LENGTH
deriving DecidableEq

/-- The C string that starts at the first character of `mem`: everything before
the first terminator. -/
def cstr (mem : List Char) : List Char := mem.takeWhile (fun c => c != NUL)

/-- What `std::string::c_str()` points at: the characters, then a terminator. -/
def c_str (s : List Char) : List Char := s ++ [NUL]

/-- Model of the test `strcmp(a, b) == 0`, `a` and `b` being the memory the two
pointers point at: the characters are compared in turn until they differ or a
terminator has been compared.  The test is `false` when either memory ends
before that, which no caller's arguments reach. -/
def strcmpEq : List Char → List Char → Bool
  | a :: as, b :: bs => if a = b then (if a = NUL then true else strcmpEq as bs) else false
  | _, _ => false

/-- An array of `STRING_LENGTH` terminators, as `bzero` leaves it. -/
def CharArray.zero : CharArray := ⟨List.replicate STRING_LENGTH NUL, by simp⟩

/-- Model of `strcpy(dst, src)` for a destination of `STRING_LENGTH` characters:
`src` is the memory the source pointer points at.  The string and its terminator
overwrite the front of `dst`; the rest of `dst` keeps its old contents.  When
`src` holds no terminator, or the string with its terminator does not fit, the
copy runs past the destination and the result is `none`. -/
def strcpy (dst : CharArray) (src : List Char) : Option CharArray :=
  if h : (cstr src).length < STRING_LENGTH ∧ NUL ∈ src then
    some ⟨cstr src ++ NUL :: dst.bytes.drop ((cstr src).length + 1), by
      have h1 := dst.size_eq
      simp only [List.length_append, List.length_cons, List.length_drop, h1]
      omega⟩
  else none

/-- The `double` of the wire format, kept as its 64-bit pattern. -/
structure Double where
  bits : Nat
deriving DecidableEq

/-- The record `struct Request`. -/
structure Request where
  op : Int
  url : CharArray
  worker : Int
  freq : Int
deriving DecidableEq

/-- The record `struct Response`. -/
structure Response where
  option : Int
  runs : Int
  status : Double
  message : CharArray
  url : CharArray
deriving DecidableEq

/-- The result of `bzero` on a `Request`. -/
def Request.zero : Request := ⟨0, CharArray.zero, 0, 0⟩

/-- The result of `bzero` on a `Response`. -/
def Response.zero : Response := ⟨0, 0, ⟨0⟩, CharArray.zero, CharArray.zero⟩

/-- The array that holds the string of `s` followed by terminators only. -/
def paddedString (s : List Char) : CharArray :=
  ⟨(cstr (c_str s) ++ List.replicate STRING_LENGTH NUL).take STRING_LENGTH, by
    simp [List.length_take]⟩

/-- What a `read(fd, &buf, sizeof(buf))` call gave: its return value, and the
record it stored when the return value is positive. -/
structure ReadResult (α : Type) where
  ret : Int
  data : α

/-- The buffer after a `read`: overwritten only when the call returned data. -/
def ReadResult.store {α : Type} (rd : ReadResult α) (old : α) : α :=
  if rd.ret > 0 then rd.data else old

/-! ### poll.h -/

/-- The event bit `POLLIN` (value on Linux). -/
def POLLIN : Nat := 1

/-- The event bit `POLLHUP` (value on Linux). -/
def POLLHUP : Nat := 16

/-- The event bit `POLLNVAL` (value on Linux). -/
def POLLNVAL : Nat := 32

/-- One `struct pollfd`; `δ` is the type descriptors are named by. -/
structure PollFd (δ : Type) where
  fd : δ
  events : Nat
  revents : Nat
deriving DecidableEq

/-- The test `revents & POLLIN`. -/
def readable (revents : Nat) : Bool := revents &&& POLLIN != 0

/-- The test `revents & POLLHUP`. -/
def hangup (revents : Nat) : Bool := revents &&& POLLHUP != 0

/-- The test `revents & POLLNVAL`. -/
def invalid (revents : Nat) : Bool := revents &&& POLLNVAL != 0

/-- What a poll-table scan leaves behind: the table afterwards, the status
returned, and the descriptors passed to `close`, in order. -/
structure PollOutcome (δ : Type) where
  poll_fd : List (PollFd δ)
  ret : Int
  closed : List δ
deriving DecidableEq

/-- The `for` loop of `WorkerPoll` (Agent.cpp) and of `AgentPoll` (Core.cpp),
which are the same text: `index` is the loop variable, the list the table
entries from `poll_fd[index]` on.  Returns the status and the descriptors
closed. -/
def pollLoop {δ : Type} : Int → List (PollFd δ) → Int × List δ
  | _, [] => (0, [])
  | index, p :: rest =>
    if p.revents ≠ 0 then
      if hangup p.revents then
        ((pollLoop (index + 1) rest).1, p.fd :: (pollLoop (index + 1) rest).2)
      else if readable p.revents then (index + 1, [])
      else if !(invalid p.revents) then
        ((pollLoop (index + 1) rest).1, p.fd :: (pollLoop (index + 1) rest).2)
      else pollLoop (index + 1) rest
    else pollLoop (index + 1) rest

/-- The table after `poll` returned: every entry carries the `revents` the call
reported for it (0 where the list gives none). -/
def pollResult {δ : Type} : List (PollFd δ) → List Nat → List (PollFd δ)
  | [], _ => []
  | p :: ps, rs => { p with revents := rs.headD 0 } :: pollResult ps rs.tail

/-- An entry that reports readable and does not report hang-up. -/
def ready {δ : Type} (p : PollFd δ) : Bool := readable p.revents && !(hangup p.revents)

/-- The smallest index of a `ready` entry, if there is one. -/
def firstReady {δ : Type} : List (PollFd δ) → Option Nat
  | [] => none
  | p :: rest => if ready p then some 0 else (firstReady rest).map (fun i => i + 1)

/-- The entries below the first `ready` one; all of them when none is ready. -/
def belowFirstReady {δ : Type} (table : List (PollFd δ)) : List (PollFd δ) :=
  match firstReady table with
  | some i => table.take i
  | none => table

/-- An entry with non-zero `revents` that reports hang-up, or reports neither
readable nor invalid. -/
def closable {δ : Type} (p : PollFd δ) : Bool :=
  p.revents != 0 && (hangup p.revents || (!(readable p.revents) && !(invalid p.revents)))

/-- The descriptors of the `closable` entries, in table order. -/
def closableFds {δ : Type} (table : List (PollFd δ)) : List δ :=
  (table.filter closable).map (fun p => p.fd)

/-! ### Wire images

A record is written from, and read into, the memory of the `struct`.  The image
is that memory on the little-endian LP64 targets the program builds for: the
fields in declaration order, an `int32_t` as 4 bytes, a `double` as 8, a `char`
array as its 128 bytes; neither record has padding. -/

/-- The `n` low-order bytes of `v`, least significant first. -/
def leBytes : Nat → Nat → List Nat
  | 0, _ => []
  | n + 1, v => v % 256 :: leBytes n (v / 256)

/-- The number a little-endian byte sequence denotes. -/
def leValue : List Nat → Nat
  | [] => 0
  | b :: bs => b + 256 * leValue bs

/-- The 4 bytes of an `int32_t`, two's complement. -/
def int32Image (x : Int) : List Nat := leBytes 4 (x % 4294967296).toNat

/-- The `int32_t` held in 4 bytes. -/
def int32OfImage (bs : List Nat) : Int := wrap32 (leValue bs)

/-- The 8 bytes of a `double`. -/
def doubleImage (d : Double) : List Nat := leBytes 8 d.bits

/-- The `double` held in 8 bytes. -/
def doubleOfImage (bs : List Nat) : Double := ⟨leValue bs⟩

/-- The bytes of a `char` array. -/
def charsImage (a : CharArray) : List Nat := a.bytes.map (fun c => c.toNat % 256)

/-- The `char` array held in `STRING_LENGTH` bytes. -/
def charsOfImage (bs : List Nat) : Option CharArray :=
  if h : bs.length = STRING_LENGTH then some ⟨bs.map Char.ofNat, by simp [h]⟩ else none

/-- The first `n` bytes of a buffer and the bytes after them. -/
def takeBytes (n : Nat) (bs : List Nat) : Option (List Nat × List Nat) :=
  if n ≤ bs.length then some (bs.take n, bs.drop n) else none

/-- The bytes `write(fd, &request, sizeof(request))` sends. -/
def Request.image (r : Request) : List Nat :=
  int32Image r.op ++ (charsImage r.url ++ (int32Image r.worker ++ int32Image r.freq))

/-- The record a `read` of `sizeof(Request)` bytes stores. -/
def Request.ofImage (bs : List Nat) : Option Request :=
  match takeBytes 4 bs with
  | none => none
  | some (op, bs1) =>
    match takeBytes STRING_LENGTH bs1 with
    | none => none
    | some (url, bs2) =>
      match takeBytes 4 bs2 with
      | none => none
      | some (worker, bs3) =>
        match charsOfImage url with
        | none => none
        | some u =>
          if bs3.length = 4 then
            some ⟨int32OfImage op, u, int32OfImage worker, int32OfImage bs3⟩
          else none

/-- The bytes `write(fd, &resp, sizeof(resp))` sends. -/
def Response.image (r : Response) : List Nat :=
  int32Image r.option ++ (int32Image r.runs ++ (doubleImage r.status
    ++ (charsImage r.message ++ charsImage r.url)))

/-- The record a `read` of `sizeof(Response)` bytes stores. -/
def Response.ofImage (bs : List Nat) : Option Response :=
  match takeBytes 4 bs with
  | none => none
  | some (option, bs1) =>
    match takeBytes 4 bs1 with
    | none => none
    | some (runs, bs2) =>
      match takeBytes 8 bs2 with
      | none => none
      | some (status, bs3) =>
        match takeBytes STRING_LENGTH bs3 with
        | none => none
        | some (message, bs4) =>
          match charsOfImage message, charsOfImage bs4 with
          | some m, some u =>
            some ⟨int32OfImage option, int32OfImage runs, doubleOfImage status, m, u⟩
          | _, _ => none

/-- The field values the wire format can carry: `int32_t` fields in range and
every `char` a byte. -/
def Request.valid (r : Request) : Prop :=
  (-2147483648 ≤ r.op ∧ r.op ≤ 2147483647)
  ∧ (-2147483648 ≤ r.worker ∧ r.worker ≤ 2147483647)
  ∧ (-2147483648 ≤ r.freq ∧ r.freq ≤ 2147483647)
  ∧ ∀ c ∈ r.url.bytes, c.toNat < 256

/-- The field values the wire format can carry: `int32_t` fields in range, the
`double` a 64-bit pattern and every `char` a byte. -/
def Response.valid (r : Response) : Prop :=
  (-2147483648 ≤ r.option ∧ r.option ≤ 2147483647)
  ∧ (-2147483648 ≤ r.runs ∧ r.runs ≤ 2147483647)
  ∧ r.status.bits < 18446744073709551616
  ∧ (∀ c ∈ r.message.bytes, c.toNat < 256)
  ∧ ∀ c ∈ r.url.bytes, c.toNat < 256

/-! ## Core.cpp -/

namespace CoreImplementation

/-- The fields of a `JobParser` object. -/
structure JobParser where
  _agent_id : Int
  _url : List Char
  _frequency : Int
deriving DecidableEq

/-- One `write(sock_fd, &request, sizeof(request))` call. -/
structure SockWrite where
  fd : Int
  request : Request
deriving DecidableEq

/-- The fields of the Core-side `Agent` object. -/
structure Agent where
  agent_id : Int
  sock_fd : Int
  running_job : Int
  is_alive : Bool
deriving DecidableEq

/-- What one call of `SendReqToAgent` leaves behind: the object afterwards, the
status code returned, and the writes issued. -/
structure SendResult where
  agent : Agent
  ret : Int
  written : List SockWrite
deriving DecidableEq

/-- Model of `Agent::SendReqToAgent`. -/
def Agent.SendReqToAgent (a : Agent) (job : JobParser) : Option SendResult :=
  if a.is_alive then
    let a1 : Agent := { a with running_job := wrap32 (a.running_job + 1) }
    if a1.running_job > MAX_AGENT_WORKER then
      some ⟨a1, -1, []⟩
    else
      match strcpy Request.zero.url (c_str job._url) with
      | none => none
      | some url =>
        let request : Request :=
          { Request.zero with url := url, worker := a1.running_job, op := 1, freq := job._frequency }
        some ⟨a1, 0, [⟨a1.sock_fd, request⟩]⟩
  else
    some ⟨a, 0, []⟩

/-- A sequence of `SendReqToAgent` calls on one object, one per job, in order:
the final object and the result of every call, in call order. -/
def Agent.sendAll : Agent → List JobParser → Option (Agent × List SendResult)
  | a, [] => some (a, [])
  | a, job :: rest =>
    match a.SendReqToAgent job with
    | none => none
    | some r =>
      match Agent.sendAll r.agent rest with
      | none => none
      | some (a2, rs) => some (a2, r :: rs)

/-- The writes of a sequence of calls, in order. -/
def writesOf : List SendResult → List SockWrite
  | [] => []
  | r :: rs => r.written ++ writesOf rs

/-- The job of the line `1 http://example.com 2`. -/
def exampleJob : JobParser := ⟨1, "http://example.com".toList, 2⟩

/-! ### Configuration parsing -/

/-- The test `isspace` in the "C" locale: space, and the controls 9 to 13. -/
def isspace (c : Char) : Bool := c.toNat == 32 || (9 ≤ c.toNat && c.toNat ≤ 13)

/-- The test `isdigit`. -/
def isdigit (c : Char) : Bool := 48 ≤ c.toNat && c.toNat ≤ 57

/-- The loop `while (ss >> tok) internal.push_back(tok)`: `cur` is the token
being read. -/
def tokensFrom : List Char → List Char → List (List Char)
  | [], cur => if cur = [] then [] else [cur]
  | c :: cs, cur =>
    if isspace c then
      if cur = [] then tokensFrom cs [] else cur :: tokensFrom cs []
    else tokensFrom cs (cur ++ [c])

/-- The maximal runs of non-space characters of a line, in order. -/
def tokens (str : List Char) : List (List Char) := tokensFrom str []

/-- Value of a run of decimal digits. -/
def digitsValue (ds : List Char) : Nat :=
  ds.foldl (fun acc c => 10 * acc + (c.toNat - 48)) 0

/-- Model of `std::stoi`: leading spaces, an optional sign, then the longest
run of digits; `none` stands for the exception thrown when there is no digit
(`invalid_argument`) or the value is not an `int` (`out_of_range`). -/
def stoi (s : List Char) : Option Int :=
  let s1 := s.dropWhile isspace
  let neg : Bool := s1.head? == some '-'
  let s2 := if s1.head? == some '-' || s1.head? == some '+' then s1.tail else s1
  let ds := s2.takeWhile isdigit
  if ds = [] then none
  else
    let v : Int := if neg then -(digitsValue ds : Int) else (digitsValue ds : Int)
    if -2147483648 ≤ v ∧ v ≤ 2147483647 then some v else none

/-- Model of the constructor `JobParser::JobParser(string str)`.  `none` when
a `stoi` throws or `internal` has fewer than three elements. -/
def JobParser.JobParser (str : List Char) : Option JobParser :=
  match tokens str with
  | t0 :: t1 :: t2 :: _ =>
    match stoi t0, stoi t2 with
    | some agent_id, some frequency => some ⟨agent_id, t1, frequency⟩
    | _, _ => none
  | _ => none

/-- The body of the `for` loop of `PushJobRequestsToAgent`, over the jobs still
to be visited. -/
def pushLoop : List Agent → List JobParser → Option (List Agent × List SockWrite)
  | agent, [] => some (agent, [])
  | agent, job :: rest =>
    let id := job._agent_id
    if id ≤ 0 ∨ id > MAX_AGENT then pushLoop agent rest
    else
      match agent[(id - 1).toNat]? with
      | none => none
      | some a =>
        match a.SendReqToAgent job with
        | none => none
        | some r =>
          match pushLoop (agent.set (id - 1).toNat r.agent) rest with
          | none => none
          | some (agent2, ws) => some (agent2, r.written ++ ws)

/-- Model of `PushJobRequestsToAgent`: `job_count` is `jobs.size()` stored in an
`int32_t`, and the loop visits `jobs[0]` to `jobs[job_count - 1]`. -/
def PushJobRequestsToAgent (agent : List Agent) (jobs : List JobParser) :
    Option (List Agent × List SockWrite) :=
  let job_count : Int := wrap32 jobs.length
  pushLoop agent (jobs.take job_count.toNat)

/-! ### The dispatch the specification describes -/

/-- Number of jobs in `seen` whose agent id is `id`. -/
def jobsFor (seen : List JobParser) (id : Int) : Nat :=
  seen.countP (fun j => j._agent_id == id)

/-- The Request described for the `k`-th job of an agent: opcode RUN, slot `k`,
the job's url and frequency, every other byte zero. -/
def claimedRequest (job : JobParser) (k : Nat) : Request :=
  ⟨1, paddedString job._url, k, job._frequency⟩

/-- The writes described for a job list, with `seen` the jobs visited before:
a job is written when its agent id is in 1..MAX_AGENT, that agent is alive and
the job is the `k`-th of its agent with `k` at most `MAX_AGENT_WORKER`; it goes
to that agent's socket, with slot `k`. -/
def claimedWritesFrom (agent : List Agent) (seen : List JobParser) :
    List JobParser → List SockWrite
  | [] => []
  | job :: rest =>
    let k := jobsFor seen job._agent_id + 1
    (match agent[(job._agent_id - 1).toNat]? with
      | some a =>
        if 1 ≤ job._agent_id ∧ job._agent_id ≤ MAX_AGENT ∧ a.is_alive = true
            ∧ (k : Int) ≤ MAX_AGENT_WORKER then
          [⟨a.sock_fd, claimedRequest job k⟩]
        else []
      | none => [])
    ++ claimedWritesFrom agent (seen ++ [job]) rest

/-- The writes described for a whole job list. -/
def claimedWrites (agent : List Agent) (jobs : List JobParser) : List SockWrite :=
  claimedWritesFrom agent [] jobs

/-- An agent object after the jobs `seen` were dispatched, `id` being the id
its position stands for: an alive object has counted every job addressed to it. -/
def afterJobs (a : Agent) (id : Int) (seen : List JobParser) : Agent :=
  if a.is_alive then { a with running_job := a.running_job + jobsFor seen id } else a

/-- The results of successive calls on an alive object whose counter is `c`,
while the counter stays below 2^31 - 1: a call that finds the counter below 5
writes the job with the next slot, every other call returns -1. -/
def aliveResults (id fd : Int) : Nat → List JobParser → List SendResult
  | _, [] => []
  | c, job :: rest =>
    (if c < 5 then
      (⟨⟨id, fd, (c : Int) + 1, true⟩, 0, [⟨fd, claimedRequest job (c + 1)⟩]⟩ : SendResult)
    else ⟨⟨id, fd, (c : Int) + 1, true⟩, -1, []⟩)
    :: aliveResults id fd (c + 1) rest

/-! ### Result sink -/

/-- The text Core compares a message against. -/
def notPresentText : List Char := "worker_not_present".toList

/-- One line printed for the front end: `url status (runs runs)`. -/
structure ResultRow where
  url : List Char
  status : Double
  runs : Int
deriving DecidableEq

/-- Model of `PushDataToFrontEnd`: the status code and the rows printed;
`cout << resp.url` prints the string held in `url`. -/
def PushDataToFrontEnd (resp : Response) : Int × List ResultRow :=
  if strcmpEq resp.message.bytes (c_str notPresentText) = true then (-1, [])
  else (0, [⟨cstr resp.url.bytes, resp.status, resp.runs⟩])

/-- The content of a non-empty config line as the file format describes it:
the three fields and the whitespace around them. -/
structure ConfigFields where
  lead : List Char
  agentID : Int
  sep1 : List Char
  url : List Char
  sep2 : List Char
  frequency : Int
  trail : List Char
deriving DecidableEq

/-- The job the fields of a line describe. -/
def ConfigFields.job (f : ConfigFields) : JobParser := ⟨f.agentID, f.url, f.frequency⟩

/-- Model of `AgentPoll` on the global `poll_fd`, which it does not assign. -/
def AgentPoll (poll_fd : List (PollFd Int)) : PollOutcome Int :=
  ⟨poll_fd, (pollLoop 0 (poll_fd.take MAX_AGENT.toNat)).1,
    (pollLoop 0 (poll_fd.take MAX_AGENT.toNat)).2⟩

/-- The state `CoreHandler` carries from one iteration to the next: the global
`poll_fd` and the local `response`. -/
structure CoreState where
  poll_fd : List (PollFd Int)
  response : Response
deriving DecidableEq

/-- The calls of one iteration of `CoreHandler`, in program order: `poll` with
the descriptors it is given, `close`, `read`, and `PushDataToFrontEnd` with its
argument and the rows it printed. -/
inductive CoreEffect where
  | poll (fds : List Int)
  | close (fd : Int)
  | read (fd : Int)
  | frontEnd (resp : Response) (rows : List ResultRow)
deriving DecidableEq

/-- One iteration of the `while (1)` loop of `CoreHandler`: `revents` is what
`poll` reported per entry, `rd` what the `read` gave. -/
def CoreHandler (agents : List Agent) (st : CoreState) (revents : List Nat)
    (rd : ReadResult Response) : Option (CoreState × List CoreEffect) :=
  let p := AgentPoll (pollResult st.poll_fd revents)
  let pre : List CoreEffect :=
    CoreEffect.poll ((st.poll_fd.take MAX_AGENT.toNat).map (fun e => e.fd))
      :: p.closed.map CoreEffect.close
  if p.ret ≠ 0 then
    match agents[(p.ret - 1).toNat]? with
    | none => none
    | some a =>
      let response := rd.store st.response
      some (⟨p.poll_fd, response⟩,
        pre ++ [CoreEffect.read a.sock_fd,
          CoreEffect.frontEnd response (PushDataToFrontEnd response).2])
  else some (⟨p.poll_fd, st.response⟩, pre)

/-- The descriptors read in a list of effects, in order. -/
def readsOf : List CoreEffect → List Int
  | [] => []
  | CoreEffect.read fd :: es => fd :: readsOf es
  | _ :: es => readsOf es

/-- The Responses passed to `PushDataToFrontEnd` in a list of effects. -/
def pushedOf : List CoreEffect → List Response
  | [] => []
  | CoreEffect.frontEnd resp _ :: es => resp :: pushedOf es
  | _ :: es => pushedOf es

/-! ### Example data -/

/-- A registry with agent 2 not connected, and a job list: seven jobs for agent
1, one for agent 2, one for an unknown agent 4, one for agent 3. -/
def exampleAgents : List Agent := [⟨1, 11, 0, true⟩, ⟨2, 12, 0, false⟩, ⟨3, 13, 0, true⟩]

/-- The job list of the example registry. -/
def exampleJobs : List JobParser :=
  [⟨1, "a".toList, 10⟩, ⟨1, "b".toList, 20⟩, ⟨2, "c".toList, 30⟩, ⟨1, "d".toList, 40⟩,
   ⟨4, "e".toList, 50⟩, ⟨1, "f".toList, 60⟩, ⟨3, "g".toList, 70⟩, ⟨1, "h".toList, 80⟩,
   ⟨1, "i".toList, 90⟩, ⟨1, "j".toList, 100⟩]

/-- A Response whose message array holds the text `x`. -/
def otherMessageResponse : Response :=
  ⟨1, 4, ⟨0⟩, paddedString "x".toList, paddedString "http://example.com".toList⟩

/-- A registry of three connected agents, on sockets 11, 12 and 13. -/
def connectedAgents : List Agent := [⟨1, 11, 1, true⟩, ⟨2, 12, 1, true⟩, ⟨3, 13, 0, true⟩]

/-- A result Response: 4 runs of `http://example.com`, empty message. -/
def exampleResult : Response :=
  ⟨1, 4, ⟨0⟩, CharArray.zero, paddedString "http://example.com".toList⟩

/-- A state of `CoreHandler`: the three sockets registered for `POLLIN`, and
`response` holding the Response read last. -/
def exampleState : CoreState :=
  ⟨[⟨11, POLLIN, 0⟩, ⟨12, POLLIN, 0⟩, ⟨13, POLLIN, 0⟩], exampleResult⟩

end CoreImplementation

/-! ## Agent.cpp -/

namespace AgentImplementation

/-- Index of the child end in `socket_fd[i]`. -/
def CHILD : Nat := 0

/-- Index of the parent end in `socket_fd[i]`. -/
def PARENT : Nat := 1

/-- Response option of a result. -/
def COMMAND : Int := 1

/-- Response option of a termination notice. -/
def EXIT : Int := 2

/-- The global `g_worker`. -/
def g_worker : Int := MAX_AGENT_WORKER

/-- The global `is_stop`; nothing assigns it. -/
def is_stop : Bool := false

/-- The text the Agent copies into the message of an error Response. -/
def notPresentText : List Char := "worker_not_present".toList

/-- The descriptor expressions of `Agent.cpp`: `agent.GetConnectionFd()`,
`agent.GetSocketFd()` and the table element `socket_fd[worker][side]`, whose row
index is kept as the program computes it (rows 0 to 4 exist). -/
inductive Fd where
  | conn
  | sock
  | socket_fd (worker : Int) (side : Nat)
deriving DecidableEq

/-- A record passed to `write`. -/
inductive Payload where
  | request (r : Request)
  | response (r : Response)
deriving DecidableEq

/-- The system calls the model records, in program order. -/
inductive Effect where
  | read (fd : Fd)
  | write (fd : Fd) (data : Payload)
  | close (fd : Fd)
  | kill
deriving DecidableEq

/-- The `while (!is_stop)` loop of `Worker::ServeRequest`, case 1.  The list
gives, per iteration, what `stod(RunJob(cmd))` returned, `none` when it threw
(the Worker process then ends); the loop is followed for as many iterations as
the list has entries.  `run_count` and `resp` are the locals. -/
def serveLoop (req : Request) : Int → Response → List (Option Double) → List Effect
  | _, _, [] => []
  | run_count, resp, probe :: rest =>
    if is_stop then []
    else
      match probe with
      | none => []
      | some status =>
        let run_count1 := wrap32 (run_count + 1)
        match strcpy resp.url req.url.bytes with
        | none => []
        | some url =>
          let resp1 : Response :=
            { resp with option := COMMAND, status := status, runs := run_count1, url := url }
          Effect.write (Fd.socket_fd (req.worker - 1) CHILD) (Payload.response resp1)
            :: serveLoop req run_count1 resp1 rest

/-- Model of `Worker::ServeRequest`: the `write` calls issued, in order.  `resp`
is what the uninitialised local `Response resp` holds on entry. -/
def ServeRequest (req : Request) (resp : Response) (probes : List (Option Double)) :
    List Effect :=
  if req.op = 1 then serveLoop req 0 resp probes
  else if req.op = 2 then
    [Effect.write (Fd.socket_fd (req.worker - 1) CHILD)
      (Payload.response { resp with option := EXIT })]
  else []

/-- The Responses among a list of effects, in order. -/
def responsesOf : List Effect → List Response
  | [] => []
  | Effect.write _ (Payload.response r) :: es => r :: responsesOf es
  | _ :: es => responsesOf es

/-- The locals of `AgentHandler` that live across iterations. -/
structure HandlerState where
  resp_core : Response
  req_core : Request

/-- The Core-to-Worker half of one iteration of `AgentHandler`: `core_poll` is
what `CorePoll()` returned, `rd` what the `read` on the connection gave. -/
def coreFlow (st : HandlerState) (core_poll : Int) (rd : ReadResult Request) :
    Option (HandlerState × List Effect) :=
  if core_poll ≠ 0 then
    let st1 : HandlerState := { st with req_core := rd.store st.req_core }
    if rd.ret > 0 then
      if st1.req_core.worker ≤ g_worker then
        some (st1, [Effect.read Fd.conn,
          Effect.write (Fd.socket_fd (st1.req_core.worker - 1) PARENT)
            (Payload.request st1.req_core)])
      else
        match strcpy st1.resp_core.message (c_str notPresentText) with
        | none => none
        | some message =>
          let resp : Response := { st1.resp_core with message := message }
          some ({ st1 with resp_core := resp },
            [Effect.read Fd.conn, Effect.write Fd.conn (Payload.response resp)])
    else some (st1, [Effect.read Fd.conn])
  else some (st, [])

/-- The Worker-to-Core half of one iteration of `AgentHandler`: `worker_index`
is what `WorkerPoll()` returned, `rd` what the `read` on that Worker gave. -/
def workerFlow (st : HandlerState) (worker_index : Int) (rd : ReadResult Response) :
    HandlerState × List Effect :=
  if worker_index ≠ 0 then
    let st1 : HandlerState := { st with resp_core := rd.store st.resp_core }
    let rdEff := Effect.read (Fd.socket_fd (worker_index - 1) PARENT)
    if st1.resp_core.option = COMMAND then
      (st1, [rdEff, Effect.write Fd.conn (Payload.response st1.resp_core)])
    else if st1.resp_core.option = EXIT then
      (st1, [rdEff, Effect.write Fd.conn (Payload.response st1.resp_core),
        Effect.close Fd.sock, Effect.kill])
    else (st1, [rdEff])
  else (st, [])

/-- One iteration of the `while (1)` loop of `AgentHandler`. -/
def AgentHandler (st : HandlerState) (core_poll : Int) (rdCore : ReadResult Request)
    (worker_index : Int) (rdWorker : ReadResult Response) :
    Option (HandlerState × List Effect) :=
  match coreFlow st core_poll rdCore with
  | none => none
  | some (st1, es1) =>
    let r := workerFlow st1 worker_index rdWorker
    some (r.1, es1 ++ r.2)

/-! ### Agent multiplexer polls and the Worker loop -/

/-- Model of `WorkerPoll` on the global `poll_fd`, which it does not assign. -/
def WorkerPoll (poll_fd : List (PollFd Fd)) : PollOutcome Fd :=
  ⟨poll_fd, (pollLoop 0 (poll_fd.take g_worker.toNat)).1,
    (pollLoop 0 (poll_fd.take g_worker.toNat)).2⟩

/-- Model of `CorePoll` on the global `poll_fd`, which it does not assign;
`none` when the table has no entry `g_worker`. -/
def CorePoll (poll_fd : List (PollFd Fd)) : Option (PollOutcome Fd) :=
  match poll_fd[g_worker.toNat]? with
  | none => none
  | some p =>
    if p.revents ≠ 0 then
      if hangup p.revents then some ⟨poll_fd, 0, [p.fd]⟩
      else if readable p.revents then some ⟨poll_fd, 1, []⟩
      else if !(invalid p.revents) then some ⟨poll_fd, 0, [p.fd]⟩
      else some ⟨poll_fd, 0, []⟩
    else some ⟨poll_fd, 0, []⟩

/-- One iteration of the `while (ALWAYS_TRUE)` loop the child runs in
`Worker::InitReqHandler`: `req_worker` is the local, `rd` what the `read` on
`socket_fd[_worker_num][CHILD]` gave; the other arguments are those of
`ServeRequest`.  Returns the local afterwards and the calls issued. -/
def InitReqHandler (_worker_num : Int) (req_worker : Request) (rd : ReadResult Request)
    (resp : Response) (probes : List (Option Double)) : Request × List Effect :=
  (rd.store req_worker,
    Effect.read (Fd.socket_fd _worker_num CHILD)
      :: ServeRequest (rd.store req_worker) resp probes)

/-! ### Example data -/

/-- A RUN Request for slot 1 with the url `http://example.com`, frequency 2. -/
def exampleRequest : Request := ⟨1, paddedString "http://example.com".toList, 1, 2⟩

/-- Locals of `AgentHandler` holding zeroes. -/
def zeroState : HandlerState := ⟨Response.zero, Request.zero⟩

/-- What the local `resp` may hold on entry: a message array starting with `x`. -/
def staleResponse : Response := { Response.zero with message := paddedString "x".toList }

/-- The poll table as `main` leaves it: the parent end of every Worker channel,
then the Core connection, each registered for `POLLIN`. -/
def initialTable : List (PollFd Fd) :=
  [⟨Fd.socket_fd 0 PARENT, POLLIN, 0⟩, ⟨Fd.socket_fd 1 PARENT, POLLIN, 0⟩,
   ⟨Fd.socket_fd 2 PARENT, POLLIN, 0⟩, ⟨Fd.socket_fd 3 PARENT, POLLIN, 0⟩,
   ⟨Fd.socket_fd 4 PARENT, POLLIN, 0⟩, ⟨Fd.conn, POLLIN, 0⟩]

/-- A Request whose url has 127 characters, the longest string the array holds;
negative frequency. -/
def boundaryRequest : Request := ⟨1, paddedString (List.replicate 127 'a'), 5, -7⟩

/-- A Response whose url and message have 127 characters. -/
def boundaryResponse : Response :=
  ⟨1, -3, ⟨4607182418800017408⟩, paddedString (List.replicate 127 'm'),
    paddedString (List.replicate 127 'a')⟩

/-- Locals of `AgentHandler` after a result Response was relayed. -/
def relayedState : HandlerState :=
  ⟨⟨1, 4, ⟨0⟩, CharArray.zero, paddedString "http://example.com".toList⟩, Request.zero⟩

end AgentImplementation


/-! # Lemmas -/

/-! ## Strings and machine integers -/

theorem wrap32_of_range (x : Int) (h1 : -2147483648 ≤ x) (h2 : x ≤ 2147483647) :
    wrap32 x = x := by
  unfold wrap32; omega

theorem wrap32_succ_wrap32 (x : Int) : wrap32 (wrap32 x + 1) = wrap32 (x + 1) := by
  unfold wrap32; omega

theorem CharArray.eq_of_bytes {a b : CharArray} (h : a.bytes = b.bytes) : a = b := by
  cases a; cases b; simp only [CharArray.mk.injEq]; exact h

theorem cstr_c_str (s : List Char) : cstr (c_str s) = cstr s := by
  unfold cstr c_str
  induction s with
  | nil => simp [List.takeWhile]
  | cons c cs ih =>
    simp only [List.cons_append, List.takeWhile_cons]
    split
    · rw [ih]
    · rfl

theorem cstr_length_le (s : List Char) : (cstr s).length ≤ s.length :=
  (List.takeWhile_sublist _).length_le

theorem NUL_mem_c_str (s : List Char) : NUL ∈ c_str s := by
  simp [c_str]

theorem strcpy_zero_c_str (s : List Char) (h : s.length < STRING_LENGTH) :
    strcpy CharArray.zero (c_str s) = some (paddedString s) := by
  have hl : (cstr (c_str s)).length < STRING_LENGTH := by
    rw [cstr_c_str]; exact lt_of_le_of_lt (cstr_length_le s) h
  unfold strcpy
  rw [dif_pos ⟨hl, NUL_mem_c_str s⟩]
  congr 1
  apply CharArray.eq_of_bytes
  simp only [paddedString, CharArray.zero, List.drop_replicate]
  rw [List.take_append_eq_append_take, List.take_of_length_le (le_of_lt hl),
    List.take_replicate, ← List.replicate_succ]
  congr 2
  omega

theorem cstr_append_NUL (t rest : List Char) (h : NUL ∉ t) : cstr (t ++ NUL :: rest) = t := by
  unfold cstr
  induction t with
  | nil => simp
  | cons c cs ih =>
    have hc : c ≠ NUL := fun e => h (by simp [e])
    have hcs : NUL ∉ cs := fun e => h (List.mem_cons_of_mem _ e)
    simp only [List.cons_append, List.takeWhile_cons, bne_iff_ne, ne_eq, hc, not_false_eq_true,
      if_true, ih hcs]

theorem NUL_not_mem_cstr (s : List Char) : NUL ∉ cstr s := by
  unfold cstr
  intro h
  have := List.mem_takeWhile_imp h
  simp at this

theorem strcmpEq_c_str (t : List Char) (ht : NUL ∉ t) :
    ∀ a : List Char, t.length < a.length → (strcmpEq a (c_str t) = true ↔ cstr a = t) := by
  induction t with
  | nil =>
    intro a ha
    cases a with
    | nil => simp at ha
    | cons x xs =>
      by_cases hx : x = NUL
      · simp [strcmpEq, c_str, cstr, hx]
      · simp [strcmpEq, c_str, cstr, hx]
  | cons c cs ih =>
    intro a ha
    have hc : c ≠ NUL := fun e => ht (by simp [e])
    have hcs : NUL ∉ cs := fun e => ht (List.mem_cons_of_mem _ e)
    cases a with
    | nil => simp at ha
    | cons x xs =>
      have hxs : cs.length < xs.length := by simpa using ha
      have ih2 := ih hcs xs hxs
      by_cases hx : x = c
      · subst hx
        simp only [c_str, List.cons_append, strcmpEq, if_true, hc, if_false]
        simp only [c_str] at ih2
        simp only [List.append_eq]
        rw [ih2]
        simp [cstr, List.takeWhile_cons, hc]
      · have hne : ¬ (cstr (x :: xs) = c :: cs) := by
          intro e
          simp only [cstr, List.takeWhile_cons] at e
          split at e
          · simp only [List.cons.injEq] at e
            exact hx e.1
          · simp at e
        simp [c_str, strcmpEq, hx, hne]

theorem cstr_length_lt (s : List Char) (h : NUL ∈ s) : (cstr s).length < s.length := by
  unfold cstr
  induction s with
  | nil => simp at h
  | cons c cs ih =>
    by_cases hc : c = NUL
    · simp [List.takeWhile_cons, hc]
    · have hcs : NUL ∈ cs := by
        rcases List.mem_cons.1 h with e | e
        · exact absurd e.symm hc
        · exact e
      have := ih hcs
      simp only [List.takeWhile_cons, bne_iff_ne, ne_eq, hc, not_false_eq_true, if_true,
        List.length_cons]
      omega

/-- A `strcpy` whose source holds a terminated string short enough succeeds, and
the destination then holds that string. -/
theorem strcpy_some (dst : CharArray) (src : List Char) (h : NUL ∈ src)
    (hl : (cstr src).length < STRING_LENGTH) :
    ∃ u, strcpy dst src = some u ∧ cstr u.bytes = cstr src := by
  unfold strcpy
  rw [dif_pos ⟨hl, h⟩]
  exact ⟨_, rfl, cstr_append_NUL _ _ (NUL_not_mem_cstr src)⟩

theorem strcpy_array (dst src : CharArray) (h : NUL ∈ src.bytes) :
    ∃ u, strcpy dst src.bytes = some u ∧ cstr u.bytes = cstr src.bytes :=
  strcpy_some dst src.bytes h (by
    have := cstr_length_lt src.bytes h
    rw [src.size_eq] at this
    exact this)

theorem strcpy_eq_some (dst : CharArray) (src : List Char) (u : CharArray)
    (h : strcpy dst src = some u) : cstr u.bytes = cstr src := by
  unfold strcpy at h
  split at h
  · simp only [Option.some.injEq] at h
    rw [← h]
    exact cstr_append_NUL _ _ (NUL_not_mem_cstr src)
  · simp at h

/-! ## Poll tables -/

theorem readable_zero : readable 0 = false := by decide

theorem firstReady_cons_of_not_ready {δ : Type} (p : PollFd δ) (rest : List (PollFd δ))
    (h : ready p = false) :
    firstReady (p :: rest) = (firstReady rest).map (fun i => i + 1) := by
  simp [firstReady, h]

theorem belowFirstReady_cons_of_not_ready {δ : Type} (p : PollFd δ) (rest : List (PollFd δ))
    (h : ready p = false) :
    belowFirstReady (p :: rest) = p :: belowFirstReady rest := by
  unfold belowFirstReady
  rw [firstReady_cons_of_not_ready p rest h]
  cases firstReady rest with
  | none => rfl
  | some i => simp

theorem belowFirstReady_cons_of_ready {δ : Type} (p : PollFd δ) (rest : List (PollFd δ))
    (h : ready p = true) : belowFirstReady (p :: rest) = [] := by
  simp [belowFirstReady, firstReady, h]

theorem closableFds_cons {δ : Type} (p : PollFd δ) (rest : List (PollFd δ)) :
    closableFds (p :: rest)
      = if closable p then p.fd :: closableFds rest else closableFds rest := by
  unfold closableFds
  by_cases h : closable p = true
  · simp [h]
  · simp [h]

/-- The status and the closed descriptors of the scan, in closed form. -/
theorem pollLoop_eq {δ : Type} (table : List (PollFd δ)) :
    ∀ index : Int, pollLoop index table
      = (match firstReady table with
          | some i => index + (i : Int) + 1
          | none => 0,
         closableFds (belowFirstReady table)) := by
  induction table with
  | nil => intro index; rfl
  | cons p rest ih =>
    intro index
    have hret : ∀ (h : ready p = false),
        (match firstReady (p :: rest) with
          | some i => index + (i : Int) + 1
          | none => (0 : Int))
        = (match firstReady rest with
          | some i => index + 1 + (i : Int) + 1
          | none => (0 : Int)) := by
      intro h
      rw [firstReady_cons_of_not_ready p rest h]
      cases firstReady rest with
      | none => rfl
      | some i => simp only [Option.map_some']; push_cast; ring
    rw [pollLoop]
    by_cases h0 : p.revents = 0
    · have hr : ready p = false := by simp [ready, h0, readable_zero]
      have hc : closable p = false := by simp [closable, h0]
      rw [if_neg (by simpa using h0), ih (index + 1), hret hr,
        belowFirstReady_cons_of_not_ready p rest hr, closableFds_cons, hc]
      simp
    · rw [if_pos h0]
      by_cases hh : hangup p.revents = true
      · have hr : ready p = false := by simp [ready, hh]
        have hc : closable p = true := by simp [closable, h0, hh]
        rw [if_pos hh, ih (index + 1), hret hr,
          belowFirstReady_cons_of_not_ready p rest hr, closableFds_cons, hc]
        simp
      · rw [if_neg hh]
        have hh2 : hangup p.revents = false := by simpa using hh
        by_cases hrd : readable p.revents = true
        · have hr : ready p = true := by simp [ready, hrd, hh2]
          rw [if_pos hrd, belowFirstReady_cons_of_ready p rest hr]
          simp [firstReady, hr, closableFds]
        · have hrd2 : readable p.revents = false := by simpa using hrd
          have hr : ready p = false := by simp [ready, hrd2]
          rw [if_neg hrd]
          by_cases hn : invalid p.revents = true
          · have hc : closable p = false := by simp [closable, hh2, hrd2, hn]
            rw [if_neg (by simp [hn]), ih (index + 1), hret hr,
              belowFirstReady_cons_of_not_ready p rest hr, closableFds_cons, hc]
            simp
          · have hn2 : invalid p.revents = false := by simpa using hn
            have hc : closable p = true := by simp [closable, h0, hh2, hrd2, hn2]
            rw [if_pos (by simp [hn2]), ih (index + 1), hret hr,
              belowFirstReady_cons_of_not_ready p rest hr, closableFds_cons, hc]
            simp

theorem hangup_ne_zero (r : Nat) (h : hangup r = true) : r ≠ 0 := by
  intro h0
  rw [h0] at h
  exact absurd h (by decide)

theorem firstReady_eq_none {δ : Type} (table : List (PollFd δ))
    (h : ∀ p ∈ table, ready p = false) : firstReady table = none := by
  induction table with
  | nil => rfl
  | cons p rest ih =>
    rw [firstReady_cons_of_not_ready p rest (h p (List.mem_cons_self _ _)),
      ih (fun q hq => h q (List.mem_cons_of_mem _ hq))]
    rfl

theorem firstReady_eq_some {δ : Type} (table : List (PollFd δ)) :
    ∀ (i : Nat) (p : PollFd δ), table[i]? = some p → ready p = true →
      (∀ k q, k < i → table[k]? = some q → ready q = false) →
      firstReady table = some i := by
  induction table with
  | nil => intro i p h; simp at h
  | cons x rest ih =>
    intro i p hi hr hfirst
    cases i with
    | zero =>
      simp only [List.getElem?_cons_zero, Option.some.injEq] at hi
      subst hi
      simp [firstReady, hr]
    | succ j =>
      have hx : ready x = false := hfirst 0 x (Nat.succ_pos _) (by simp)
      simp only [List.getElem?_cons_succ] at hi
      have hrest := ih j p hi hr (fun k q hk hq => hfirst (k + 1) q (by omega) (by simpa using hq))
      rw [firstReady_cons_of_not_ready x rest hx, hrest]
      rfl

theorem firstReady_some_ready {δ : Type} (table : List (PollFd δ)) :
    ∀ i : Nat, firstReady table = some i → ∃ p, table[i]? = some p ∧ ready p = true := by
  induction table with
  | nil => intro i h; simp [firstReady] at h
  | cons x rest ih =>
    intro i h
    by_cases hx : ready x = true
    · simp only [firstReady, hx, if_true, Option.some.injEq] at h
      subst h
      exact ⟨x, by simp, hx⟩
    · have hx2 : ready x = false := by simpa using hx
      rw [firstReady_cons_of_not_ready x rest hx2] at h
      cases hf : firstReady rest with
      | none => simp [hf] at h
      | some j =>
        simp only [hf, Option.map_some', Option.some.injEq] at h
        subst h
        obtain ⟨p, hp, hr⟩ := ih j hf
        exact ⟨p, by simpa using hp, hr⟩

theorem belowFirstReady_of_first {δ : Type} (table : List (PollFd δ)) (i : Nat)
    (h : firstReady table = some i) : belowFirstReady table = table.take i := by
  simp [belowFirstReady, h]

theorem belowFirstReady_of_none {δ : Type} (table : List (PollFd δ))
    (h : firstReady table = none) : belowFirstReady table = table := by
  simp [belowFirstReady, h]

theorem mem_closableFds_of_hangup {δ : Type} (table : List (PollFd δ)) (p : PollFd δ)
    (hp : p ∈ table) (h : hangup p.revents = true) : p.fd ∈ closableFds table := by
  unfold closableFds
  refine List.mem_map.2 ⟨p, List.mem_filter.2 ⟨hp, ?_⟩, rfl⟩
  have h0 := hangup_ne_zero p.revents h
  simp [closable, h0, h]

/-! ## Wire images -/

theorem leBytes_length (n : Nat) : ∀ v : Nat, (leBytes n v).length = n := by
  induction n with
  | zero => intro v; rfl
  | succ k ih => intro v; simp [leBytes, ih]

theorem leValue_leBytes (n : Nat) : ∀ v : Nat, leValue (leBytes n v) = v % 256 ^ n := by
  induction n with
  | zero => intro v; simp [leBytes, leValue, Nat.mod_one]
  | succ k ih =>
    intro v
    simp only [leBytes, leValue, ih]
    rw [pow_succ, Nat.mul_comm (256 ^ k) 256, Nat.mod_mul]

theorem int32_roundtrip (x : Int) (h1 : -2147483648 ≤ x) (h2 : x ≤ 2147483647) :
    int32OfImage (int32Image x) = x := by
  unfold int32OfImage int32Image
  rw [leValue_leBytes]
  have hnn : 0 ≤ x % 4294967296 := Int.emod_nonneg _ (by decide)
  have hlt : x % 4294967296 < 4294967296 := Int.emod_lt_of_pos _ (by decide)
  have hcast : (((x % 4294967296).toNat % 256 ^ 4 : Nat) : Int) = x % 4294967296 := by
    have : (x % 4294967296).toNat % 256 ^ 4 = (x % 4294967296).toNat := by
      apply Nat.mod_eq_of_lt
      have : (256 : Nat) ^ 4 = 4294967296 := by norm_num
      rw [this]
      omega
    rw [this]
    exact Int.toNat_of_nonneg hnn
  rw [hcast]
  unfold wrap32
  omega

theorem double_roundtrip (d : Double) (h : d.bits < 18446744073709551616) :
    doubleOfImage (doubleImage d) = d := by
  unfold doubleOfImage doubleImage
  rw [leValue_leBytes]
  have : (256 : Nat) ^ 8 = 18446744073709551616 := by norm_num
  rw [this, Nat.mod_eq_of_lt h]

theorem charsImage_length (a : CharArray) : (charsImage a).length = STRING_LENGTH := by
  simp [charsImage, a.size_eq]

theorem chars_roundtrip (a : CharArray) (h : ∀ c ∈ a.bytes, c.toNat < 256) :
    charsOfImage (charsImage a) = some a := by
  unfold charsOfImage
  rw [dif_pos (charsImage_length a)]
  congr 1
  apply CharArray.eq_of_bytes
  simp only [charsImage, List.map_map]
  conv_rhs => rw [← List.map_id a.bytes]
  apply List.map_congr_left
  intro c hc
  simp only [Function.comp, id, Nat.mod_eq_of_lt (h c hc)]
  exact Char.ofNat_toNat c

theorem takeBytes_append (l1 l2 : List Nat) (n : Nat) (h : l1.length = n) :
    takeBytes n (l1 ++ l2) = some (l1, l2) := by
  unfold takeBytes
  rw [if_pos (by simp [h])]
  subst h
  simp

theorem int32Image_length (x : Int) : (int32Image x).length = 4 := leBytes_length 4 _

theorem doubleImage_length (d : Double) : (doubleImage d).length = 8 := leBytes_length 8 _

theorem request_roundtrip (r : Request) (h : r.valid) :
    Request.ofImage r.image = some r := by
  obtain ⟨⟨h1, h2⟩, ⟨h3, h4⟩, ⟨h5, h6⟩, h7⟩ := h
  unfold Request.ofImage Request.image
  rw [takeBytes_append _ _ 4 (int32Image_length _)]
  simp only
  rw [takeBytes_append _ _ STRING_LENGTH (charsImage_length _)]
  simp only
  rw [takeBytes_append _ _ 4 (int32Image_length _)]
  simp only [chars_roundtrip r.url h7]
  rw [if_pos (int32Image_length _), int32_roundtrip _ h1 h2, int32_roundtrip _ h3 h4,
    int32_roundtrip _ h5 h6]

theorem response_roundtrip (r : Response) (h : r.valid) :
    Response.ofImage r.image = some r := by
  obtain ⟨⟨h1, h2⟩, ⟨h3, h4⟩, h5, h6, h7⟩ := h
  unfold Response.ofImage Response.image
  rw [takeBytes_append _ _ 4 (int32Image_length _)]
  simp only
  rw [takeBytes_append _ _ 4 (int32Image_length _)]
  simp only
  rw [takeBytes_append _ _ 8 (doubleImage_length _)]
  simp only
  rw [takeBytes_append _ _ STRING_LENGTH (charsImage_length _)]
  simp only [chars_roundtrip r.message h6, chars_roundtrip r.url h7]
  rw [int32_roundtrip _ h1 h2, int32_roundtrip _ h3 h4, double_roundtrip r.status h5]

theorem request_image_length (r : Request) : r.image.length = 140 := by
  simp [Request.image, int32Image_length, charsImage_length, STRING_LENGTH]

theorem response_image_length (r : Response) : r.image.length = 272 := by
  simp [Response.image, int32Image_length, doubleImage_length, charsImage_length,
    STRING_LENGTH]

/-! ## Core.cpp -/

namespace CoreImplementation

theorem send_dead (a : Agent) (job : JobParser) (h : a.is_alive = false) :
    a.SendReqToAgent job = some ⟨a, 0, []⟩ := by
  simp [Agent.SendReqToAgent, h]

theorem send_accepted (a : Agent) (job : JobParser) (h : a.is_alive = true)
    (h0 : 0 ≤ a.running_job) (h5 : a.running_job < 5)
    (hfit : job._url.length < STRING_LENGTH) :
    a.SendReqToAgent job
      = some ⟨{ a with running_job := a.running_job + 1 }, 0,
          [⟨a.sock_fd, ⟨1, paddedString job._url, a.running_job + 1, job._frequency⟩⟩]⟩ := by
  have hw : wrap32 (a.running_job + 1) = a.running_job + 1 :=
    wrap32_of_range _ (by omega) (by omega)
  have hs : strcpy Request.zero.url (c_str job._url) = some (paddedString job._url) :=
    strcpy_zero_c_str _ hfit
  simp only [Agent.SendReqToAgent, h, if_true, hw, MAX_AGENT_WORKER, hs]
  rw [if_neg (by omega)]

theorem send_reject (a : Agent) (job : JobParser) (h : a.is_alive = true)
    (h5 : 5 ≤ a.running_job) (hmax : a.running_job < 2147483647) :
    a.SendReqToAgent job = some ⟨{ a with running_job := a.running_job + 1 }, -1, []⟩ := by
  have hw : wrap32 (a.running_job + 1) = a.running_job + 1 :=
    wrap32_of_range _ (by omega) (by omega)
  simp only [Agent.SendReqToAgent, h, if_true, hw, MAX_AGENT_WORKER]
  rw [if_pos (by omega)]

theorem send_wrap (a : Agent) (job : JobParser) (h : a.is_alive = true)
    (hmax : a.running_job = 2147483647) (hfit : job._url.length < STRING_LENGTH) :
    a.SendReqToAgent job
      = some ⟨{ a with running_job := -2147483648 }, 0,
          [⟨a.sock_fd, ⟨1, paddedString job._url, -2147483648, job._frequency⟩⟩]⟩ := by
  have hw : wrap32 (a.running_job + 1) = -2147483648 := by rw [hmax]; decide
  have hs : strcpy Request.zero.url (c_str job._url) = some (paddedString job._url) :=
    strcpy_zero_c_str _ hfit
  simp only [Agent.SendReqToAgent, h, if_true, hw, MAX_AGENT_WORKER, hs]
  rw [if_neg (by omega)]

theorem jobsFor_append_same (seen : List JobParser) (job : JobParser) :
    jobsFor (seen ++ [job]) job._agent_id = jobsFor seen job._agent_id + 1 := by
  simp [jobsFor, List.countP_append]

theorem jobsFor_append_other (seen : List JobParser) (job : JobParser) (id : Int)
    (h : job._agent_id ≠ id) : jobsFor (seen ++ [job]) id = jobsFor seen id := by
  simp [jobsFor, List.countP_append, h]

theorem jobsFor_le (seen : List JobParser) (id : Int) : jobsFor seen id ≤ seen.length :=
  List.countP_le_length _

theorem afterJobs_other (a : Agent) (id : Int) (seen : List JobParser) (job : JobParser)
    (h : job._agent_id ≠ id) : afterJobs a id (seen ++ [job]) = afterJobs a id seen := by
  simp only [afterJobs, jobsFor_append_other seen job id h]

/-- One dispatch on the object of the job's own agent. -/
theorem send_afterJobs (a : Agent) (seen : List JobParser) (job : JobParser)
    (h0 : a.running_job = 0) (hlen : (seen.length : Int) < 2147483647)
    (hfit : job._url.length < STRING_LENGTH) :
    ∃ ret, (afterJobs a job._agent_id seen).SendReqToAgent job
      = some ⟨afterJobs a job._agent_id (seen ++ [job]), ret,
          if a.is_alive = true ∧ ((jobsFor seen job._agent_id + 1 : Nat) : Int) ≤ MAX_AGENT_WORKER
          then [⟨a.sock_fd, claimedRequest job (jobsFor seen job._agent_id + 1)⟩] else []⟩ := by
  have hle := jobsFor_le seen job._agent_id
  obtain ⟨aid, fd, rj, al⟩ := a
  simp only at h0
  subst h0
  cases al with
  | false =>
    refine ⟨0, ?_⟩
    have e1 : afterJobs ⟨aid, fd, 0, false⟩ job._agent_id seen = ⟨aid, fd, 0, false⟩ := by
      simp [afterJobs]
    have e2 : afterJobs ⟨aid, fd, 0, false⟩ job._agent_id (seen ++ [job])
        = ⟨aid, fd, 0, false⟩ := by simp [afterJobs]
    rw [e1, e2, send_dead _ job rfl]
    simp
  | true =>
    have e1 : afterJobs ⟨aid, fd, 0, true⟩ job._agent_id seen
        = ⟨aid, fd, (jobsFor seen job._agent_id : Int), true⟩ := by
      simp [afterJobs]
    have e2 : afterJobs ⟨aid, fd, 0, true⟩ job._agent_id (seen ++ [job])
        = ⟨aid, fd, (jobsFor seen job._agent_id : Int) + 1, true⟩ := by
      simp [afterJobs, jobsFor_append_same]
    rw [e1, e2]
    by_cases h5 : jobsFor seen job._agent_id < 5
    · refine ⟨0, ?_⟩
      rw [send_accepted ⟨aid, fd, (jobsFor seen job._agent_id : Int), true⟩ job rfl
        (by simp) (by simp only; omega) hfit]
      have hc : ((jobsFor seen job._agent_id + 1 : Nat) : Int) ≤ MAX_AGENT_WORKER := by
        simp only [MAX_AGENT_WORKER]; omega
      simp only [hc, and_self, if_true, claimedRequest]
      simp
    · refine ⟨-1, ?_⟩
      rw [send_reject ⟨aid, fd, (jobsFor seen job._agent_id : Int), true⟩ job rfl
        (by simp only; omega) (by simp only; omega)]
      have hc : ¬ ((jobsFor seen job._agent_id + 1 : Nat) : Int) ≤ MAX_AGENT_WORKER := by
        simp only [MAX_AGENT_WORKER]; omega
      simp only [hc, and_false, if_false]

theorem claimedWritesFrom_slots (agent : List Agent) (rest : List JobParser) :
    ∀ seen, ∀ w ∈ claimedWritesFrom agent seen rest,
      w.request.op = 1 ∧ 1 ≤ w.request.worker ∧ w.request.worker ≤ MAX_AGENT_WORKER := by
  induction rest with
  | nil => intro seen w hw; simp [claimedWritesFrom] at hw
  | cons job rest ih =>
    intro seen w hw
    rw [claimedWritesFrom, List.mem_append] at hw
    rcases hw with hw | hw
    · split at hw
      · split at hw
        · rename_i hc
          rw [List.mem_singleton] at hw
          subst hw
          refine ⟨rfl, ?_, hc.2.2.2⟩
          simp only [claimedRequest]
          omega
        · simp at hw
      · simp at hw
    · exact ih _ w hw

/-- The loop of `PushJobRequestsToAgent` on three agent objects that have
already been through the jobs `seen`. -/
theorem pushLoop_claimed (a1 a2 a3 : Agent) (h1 : a1.running_job = 0)
    (h2 : a2.running_job = 0) (h3 : a3.running_job = 0) (rest : List JobParser) :
    ∀ seen : List JobParser, ((seen.length + rest.length : Nat) : Int) ≤ 2147483647 →
      (∀ j ∈ rest, j._url.length < STRING_LENGTH) →
      pushLoop [afterJobs a1 1 seen, afterJobs a2 2 seen, afterJobs a3 3 seen] rest
        = some ([afterJobs a1 1 (seen ++ rest), afterJobs a2 2 (seen ++ rest),
                  afterJobs a3 3 (seen ++ rest)],
                claimedWritesFrom [a1, a2, a3] seen rest) := by
  induction rest with
  | nil => intro seen _ _; simp [pushLoop, claimedWritesFrom]
  | cons job rest ih =>
    intro seen hlen hfit
    have hfitj : job._url.length < STRING_LENGTH := hfit job (List.mem_cons_self _ _)
    have hfitr : ∀ j ∈ rest, j._url.length < STRING_LENGTH :=
      fun j hj => hfit j (List.mem_cons_of_mem _ hj)
    simp only [List.length_cons] at hlen
    have hlen1 : (seen.length : Int) < 2147483647 := by omega
    have hih := ih (seen ++ [job]) (by simp only [List.length_append, List.length_singleton]; omega)
      hfitr
    have happ : seen ++ [job] ++ rest = seen ++ job :: rest := by simp
    rw [happ] at hih
    rw [pushLoop, claimedWritesFrom]
    by_cases hid : job._agent_id ≤ 0 ∨ job._agent_id > MAX_AGENT
    · rw [if_pos hid]
      simp only [MAX_AGENT] at hid
      rw [afterJobs_other a1 1 seen job (by omega), afterJobs_other a2 2 seen job (by omega),
        afterJobs_other a3 3 seen job (by omega)] at hih
      rw [hih]
      have hnil : (match [a1, a2, a3][(job._agent_id - 1).toNat]? with
          | some a =>
            if 1 ≤ job._agent_id ∧ job._agent_id ≤ MAX_AGENT ∧ a.is_alive = true
                ∧ ((jobsFor seen job._agent_id + 1 : Nat) : Int) ≤ MAX_AGENT_WORKER then
              [(⟨a.sock_fd, claimedRequest job (jobsFor seen job._agent_id + 1)⟩ : SockWrite)]
            else []
          | none => []) = [] := by
        split
        · rw [if_neg]
          simp only [MAX_AGENT]
          omega
        · rfl
      rw [hnil, List.nil_append]
    · rw [if_neg hid]
      simp only [MAX_AGENT] at hid
      have hcases : job._agent_id = 1 ∨ job._agent_id = 2 ∨ job._agent_id = 3 := by omega
      rcases hcases with hj | hj | hj
      · obtain ⟨ret, hsend⟩ := send_afterJobs a1 seen job h1 hlen1 hfitj
        rw [afterJobs_other a2 2 seen job (by omega),
          afterJobs_other a3 3 seen job (by omega)] at hih
        rw [hj] at hsend ⊢
        have hidx : ((1 : Int) - 1).toNat = 0 := rfl
        simp only [hidx, List.getElem?_cons_zero, hsend, List.set_cons_zero, hih]
        simp [MAX_AGENT]
      · obtain ⟨ret, hsend⟩ := send_afterJobs a2 seen job h2 hlen1 hfitj
        rw [afterJobs_other a1 1 seen job (by omega),
          afterJobs_other a3 3 seen job (by omega)] at hih
        rw [hj] at hsend ⊢
        have hidx : ((2 : Int) - 1).toNat = 1 := rfl
        simp only [hidx, List.getElem?_cons_succ, List.getElem?_cons_zero, hsend,
          List.set_cons_succ, List.set_cons_zero, hih]
        simp [MAX_AGENT]
      · obtain ⟨ret, hsend⟩ := send_afterJobs a3 seen job h3 hlen1 hfitj
        rw [afterJobs_other a1 1 seen job (by omega),
          afterJobs_other a2 2 seen job (by omega)] at hih
        rw [hj] at hsend ⊢
        have hidx : ((3 : Int) - 1).toNat = 2 := rfl
        simp only [hidx, List.getElem?_cons_succ, List.getElem?_cons_zero, hsend,
          List.set_cons_succ, List.set_cons_zero, hih]
        simp [MAX_AGENT]

theorem afterJobs_nil (a : Agent) (id : Int) : afterJobs a id [] = a := by
  simp [afterJobs, jobsFor]

theorem sendAll_append (a : Agent) (l1 l2 : List JobParser) (a1 a2 : Agent)
    (r1 r2 : List SendResult)
    (h1 : Agent.sendAll a l1 = some (a1, r1))
    (h2 : Agent.sendAll a1 l2 = some (a2, r2)) :
    Agent.sendAll a (l1 ++ l2) = some (a2, r1 ++ r2) := by
  induction l1 generalizing a r1 with
  | nil =>
    simp only [Agent.sendAll, Option.some.injEq, Prod.mk.injEq] at h1
    obtain ⟨rfl, rfl⟩ := h1
    simpa using h2
  | cons j js ih =>
    simp only [Agent.sendAll, List.cons_append] at h1 ⊢
    cases hs : a.SendReqToAgent j with
    | none => simp [hs] at h1
    | some r =>
      simp only [hs] at h1 ⊢
      cases hr : Agent.sendAll r.agent js with
      | none => simp [hr] at h1
      | some t =>
        obtain ⟨a3, r3⟩ := t
        simp only [hr, Option.some.injEq, Prod.mk.injEq] at h1
        obtain ⟨rfl, rfl⟩ := h1
        have h3 := ih r.agent r3 hr
        simp only [List.append_eq, h3, List.cons_append]

theorem writesOf_append (r1 r2 : List SendResult) :
    writesOf (r1 ++ r2) = writesOf r1 ++ writesOf r2 := by
  induction r1 with
  | nil => rfl
  | cons r rs ih =>
    simp only [List.cons_append, writesOf, List.append_eq, ih, List.append_assoc]

/-- Below the wrap-around, the calls on an alive object give `aliveResults`. -/
theorem sendAll_alive (id fd : Int) (jobs : List JobParser) :
    ∀ c : Nat, c + jobs.length ≤ 2147483647 →
      (∀ j ∈ jobs, j._url.length < STRING_LENGTH) →
      Agent.sendAll ⟨id, fd, c, true⟩ jobs
        = some (⟨id, fd, ((c + jobs.length : Nat) : Int), true⟩, aliveResults id fd c jobs) := by
  induction jobs with
  | nil => intro c _ _; simp [Agent.sendAll, aliveResults]
  | cons job rest ih =>
    intro c hc hfit
    simp only [List.length_cons] at hc
    have hrest := ih (c + 1) (by omega) (fun j hj => hfit j (List.mem_cons_of_mem _ hj))
    have hfitj := hfit job (List.mem_cons_self _ _)
    have hcast : ((c + 1 : Nat) : Int) = (c : Int) + 1 := by push_cast; rfl
    have hlen : ((c + 1 + rest.length : Nat) : Int) = ((c + (rest.length + 1) : Nat) : Int) := by
      congr 1; omega
    rw [hcast, hlen] at hrest
    rw [Agent.sendAll, aliveResults]
    by_cases h5 : c < 5
    · rw [send_accepted ⟨id, fd, c, true⟩ job rfl (by simp) (by simp only; omega) hfitj]
      simp only [hrest, List.length_cons, h5, if_true, claimedRequest]
      simp
    · rw [send_reject ⟨id, fd, c, true⟩ job rfl (by simp only; omega) (by simp only; omega)]
      simp only [hrest, List.length_cons, h5, if_false]

theorem writesOf_aliveResults_length (id fd : Int) (jobs : List JobParser) :
    ∀ c : Nat, (writesOf (aliveResults id fd c jobs)).length
      = min (c + jobs.length) 5 - min c 5 := by
  induction jobs with
  | nil => intro c; simp [aliveResults, writesOf]
  | cons job rest ih =>
    intro c
    simp only [aliveResults, writesOf, List.length_append, ih (c + 1), List.length_cons]
    by_cases h5 : c < 5
    · simp only [h5, if_true, List.length_singleton]; omega
    · simp only [h5, if_false, List.length_nil]; omega

theorem aliveResults_take (id fd : Int) (jobs : List JobParser) :
    ∀ (c i : Nat), (aliveResults id fd c jobs).take i = aliveResults id fd c (jobs.take i) := by
  induction jobs with
  | nil => intro c i; simp [aliveResults]
  | cons job rest ih =>
    intro c i
    cases i with
    | zero => simp [aliveResults]
    | succ k => simp only [aliveResults, List.take_succ_cons, ih (c + 1) k]

theorem aliveResults_getElem (id fd : Int) (jobs : List JobParser) :
    ∀ (c i : Nat) (r : SendResult), (aliveResults id fd c jobs)[i]? = some r →
      5 ≤ c + i → r.ret = -1 ∧ r.written = [] := by
  induction jobs with
  | nil => intro c i r h; simp [aliveResults] at h
  | cons job rest ih =>
    intro c i r h hge
    cases i with
    | zero =>
      have h5 : ¬ c < 5 := by omega
      simp only [aliveResults, h5, if_false, List.getElem?_cons_zero, Option.some.injEq] at h
      subst h
      exact ⟨rfl, rfl⟩
    | succ k =>
      simp only [aliveResults, List.getElem?_cons_succ] at h
      exact ih (c + 1) k r h (by omega)

/-- The calls on an object that is not alive change and write nothing. -/
theorem sendAll_dead (a : Agent) (h : a.is_alive = false) (jobs : List JobParser) :
    ∃ rs, Agent.sendAll a jobs = some (a, rs) ∧ ∀ k, writesOf (rs.take k) = [] := by
  induction jobs with
  | nil => exact ⟨[], rfl, fun k => by simp [writesOf]⟩
  | cons job rest ih =>
    obtain ⟨rs, hrs, hw⟩ := ih
    refine ⟨⟨a, 0, []⟩ :: rs, ?_, ?_⟩
    · simp only [Agent.sendAll, send_dead a job h, hrs]
    · intro k
      cases k with
      | zero => simp [writesOf]
      | succ m => simp only [List.take_succ_cons, writesOf, hw m, List.append_nil]

/-- The call that follows `N = 2^31 - 1` calls on a fresh alive object. -/
theorem sendAll_wrap_at (N : Nat) (hN : (N : Int) = 2147483647) :
    ∃ a rs,
      Agent.sendAll ⟨1, 7, 0, true⟩ (List.replicate (N + 1) exampleJob) = some (a, rs)
      ∧ (writesOf rs).length = 6
      ∧ rs.getLast? = some ⟨⟨1, 7, -2147483648, true⟩, 0,
          [⟨7, ⟨1, paddedString exampleJob._url, -2147483648, 2⟩⟩]⟩ := by
  have h1 := sendAll_alive 1 7 (List.replicate N exampleJob) 0
    (by simp only [List.length_replicate]; omega)
    (fun j hj => by rw [List.eq_of_mem_replicate hj]; decide)
  have h2 := writesOf_aliveResults_length 1 7 (List.replicate N exampleJob) 0
  simp only [List.length_replicate, Nat.zero_add] at h1 h2
  have hlast : Agent.sendAll ⟨1, 7, (N : Int), true⟩ [exampleJob]
      = some (⟨1, 7, -2147483648, true⟩, [⟨⟨1, 7, -2147483648, true⟩, 0,
          [⟨7, ⟨1, paddedString exampleJob._url, -2147483648, 2⟩⟩]⟩]) := by
    rw [hN, Agent.sendAll, send_wrap ⟨1, 7, 2147483647, true⟩ exampleJob rfl rfl (by decide)]
    simp only [Agent.sendAll]
    rfl
  refine ⟨⟨1, 7, -2147483648, true⟩, aliveResults 1 7 0 (List.replicate N exampleJob) ++
    [⟨⟨1, 7, -2147483648, true⟩, 0,
      [⟨7, ⟨1, paddedString exampleJob._url, -2147483648, 2⟩⟩]⟩], ?_, ?_, ?_⟩
  · rw [List.replicate_succ']
    exact sendAll_append _ _ _ _ _ _ _ h1 hlast
  · rw [writesOf_append, List.length_append, h2]
    simp only [writesOf, List.append_nil, List.length_singleton]
    omega
  · simp

theorem readsOf_append (e1 e2 : List CoreEffect) : readsOf (e1 ++ e2) = readsOf e1 ++ readsOf e2 := by
  induction e1 with
  | nil => rfl
  | cons e es ih => cases e <;> simp [readsOf, ih]

theorem pushedOf_append (e1 e2 : List CoreEffect) :
    pushedOf (e1 ++ e2) = pushedOf e1 ++ pushedOf e2 := by
  induction e1 with
  | nil => rfl
  | cons e es ih => cases e <;> simp [pushedOf, ih]

theorem readsOf_closes (fds : List Int) : readsOf (fds.map CoreEffect.close) = [] := by
  induction fds with
  | nil => rfl
  | cons f fs ih => simp [readsOf, ih]

theorem pushedOf_closes (fds : List Int) : pushedOf (fds.map CoreEffect.close) = [] := by
  induction fds with
  | nil => rfl
  | cons f fs ih => simp [pushedOf, ih]

/-- One iteration of `CoreHandler` when entry `i` is the first ready one. -/
theorem CoreHandler_ready (agents : List Agent) (st : CoreState) (revents : List Nat)
    (rd : ReadResult Response) (i : Nat) (p : PollFd Int) (a : Agent)
    (hi : ((pollResult st.poll_fd revents).take MAX_AGENT.toNat)[i]? = some p)
    (hr : ready p = true)
    (hfirst : ∀ k q, k < i →
      ((pollResult st.poll_fd revents).take MAX_AGENT.toNat)[k]? = some q → ready q = false)
    (ha : agents[i]? = some a) :
    CoreHandler agents st revents rd
      = some (⟨pollResult st.poll_fd revents, rd.store st.response⟩,
          (CoreEffect.poll ((st.poll_fd.take MAX_AGENT.toNat).map (fun e => e.fd))
            :: (closableFds (((pollResult st.poll_fd revents).take MAX_AGENT.toNat).take i)).map
                CoreEffect.close)
          ++ [CoreEffect.read a.sock_fd,
              CoreEffect.frontEnd (rd.store st.response)
                (PushDataToFrontEnd (rd.store st.response)).2]) := by
  have hf := firstReady_eq_some _ i p hi hr hfirst
  have hloop := pollLoop_eq ((pollResult st.poll_fd revents).take MAX_AGENT.toNat) 0
  rw [hf, belowFirstReady_of_first _ i hf] at hloop
  have hne : (0 : Int) + (i : Int) + 1 ≠ 0 := by omega
  have hidx : ((0 : Int) + (i : Int) + 1 - 1).toNat = i := by omega
  simp only [CoreHandler, AgentPoll, hloop, hne, ne_eq, not_false_eq_true, if_true, hidx, ha]

/-- One iteration of `CoreHandler` when no entry is ready. -/
theorem CoreHandler_idle (agents : List Agent) (st : CoreState) (revents : List Nat)
    (rd : ReadResult Response)
    (h : ∀ p ∈ (pollResult st.poll_fd revents).take MAX_AGENT.toNat, ready p = false) :
    CoreHandler agents st revents rd
      = some (⟨pollResult st.poll_fd revents, st.response⟩,
          CoreEffect.poll ((st.poll_fd.take MAX_AGENT.toNat).map (fun e => e.fd))
            :: (closableFds ((pollResult st.poll_fd revents).take MAX_AGENT.toNat)).map
                CoreEffect.close) := by
  have hf := firstReady_eq_none _ h
  have hloop := pollLoop_eq ((pollResult st.poll_fd revents).take MAX_AGENT.toNat) 0
  rw [hf, belowFirstReady_of_none _ hf] at hloop
  simp only [CoreHandler, AgentPoll, hloop, ne_eq, not_true_eq_false, if_false]

theorem pushData_of_sentinel (resp : Response)
    (h : cstr resp.message.bytes = notPresentText) : PushDataToFrontEnd resp = (-1, []) := by
  have hiff := strcmpEq_c_str notPresentText (by decide) resp.message.bytes
    (by rw [resp.message.size_eq]; decide)
  unfold PushDataToFrontEnd
  rw [if_pos (hiff.2 h)]

end CoreImplementation

/-! ## Agent.cpp -/

namespace AgentImplementation

/-- The `i`-th Response of the run loop, when the probe succeeds in the first
`i + 1` iterations. -/
theorem serveLoop_response (req : Request) (hurl : NUL ∈ req.url.bytes)
    (probes : List (Option Double)) :
    ∀ (run_count : Int) (resp : Response) (i : Nat),
      (∀ k, k ≤ i → ∃ s, probes[k]? = some (some s)) →
      ∃ r, (responsesOf (serveLoop req run_count resp probes))[i]? = some r
        ∧ r.option = COMMAND ∧ r.runs = wrap32 (run_count + i + 1)
        ∧ cstr r.url.bytes = cstr req.url.bytes ∧ r.message = resp.message := by
  induction probes with
  | nil =>
    intro run_count resp i h
    obtain ⟨s, hs⟩ := h 0 (Nat.zero_le _)
    simp at hs
  | cons p ps ih =>
    intro run_count resp i h
    obtain ⟨s, hs⟩ := h 0 (Nat.zero_le _)
    simp only [List.getElem?_cons_zero, Option.some.injEq] at hs
    subst hs
    obtain ⟨u, hu, hcu⟩ := strcpy_array resp.url req.url hurl
    simp only [serveLoop, is_stop, Bool.false_eq_true, if_false, hu, responsesOf]
    cases i with
    | zero =>
      refine ⟨⟨COMMAND, wrap32 (run_count + 1), s, resp.message, u⟩,
        by simp only [List.getElem?_cons_zero], rfl, ?_, hcu, rfl⟩
      simp
    | succ j =>
      have hj : ∀ k, k ≤ j → ∃ s, ps[k]? = some (some s) := by
        intro k hk
        have := h (k + 1) (by omega)
        simpa using this
      obtain ⟨r, hr, h1, h2, h3, h4⟩ := ih (wrap32 (run_count + 1))
        { resp with option := COMMAND, status := s, runs := wrap32 (run_count + 1), url := u } j hj
      refine ⟨r, by simpa using hr, h1, ?_, h3, h4⟩
      rw [h2]
      simp only [wrap32]
      push_cast
      omega

/-- Every Response the run loop writes, by its position. -/
theorem serveLoop_written (req : Request) (probes : List (Option Double)) :
    ∀ (run_count : Int) (resp : Response) (i : Nat) (r : Response),
      (responsesOf (serveLoop req run_count resp probes))[i]? = some r →
      r.option = COMMAND ∧ r.runs = wrap32 (run_count + i + 1)
        ∧ cstr r.url.bytes = cstr req.url.bytes := by
  induction probes with
  | nil => intro _ _ i r h; simp [serveLoop, responsesOf] at h
  | cons p ps ih =>
    intro run_count resp i r h
    cases p with
    | none => simp [serveLoop, is_stop, responsesOf] at h
    | some s =>
      cases hu : strcpy resp.url req.url.bytes with
      | none => simp [serveLoop, is_stop, hu, responsesOf] at h
      | some u =>
        simp only [serveLoop, is_stop, Bool.false_eq_true, if_false, hu, responsesOf] at h
        cases i with
        | zero =>
          simp only [List.getElem?_cons_zero, Option.some.injEq] at h
          subst h
          refine ⟨rfl, ?_, strcpy_eq_some _ _ _ hu⟩
          simp
        | succ j =>
          simp only [List.getElem?_cons_succ] at h
          obtain ⟨h1, h2, h3⟩ := ih _ _ j r h
          refine ⟨h1, ?_, h3⟩
          rw [h2]
          simp only [wrap32]
          push_cast
          omega

theorem serveLoop_message (req : Request) (probes : List (Option Double)) :
    ∀ (run_count : Int) (resp : Response),
      (responsesOf (serveLoop req run_count resp probes)).map (fun r => r.message)
        = List.replicate (responsesOf (serveLoop req run_count resp probes)).length
            resp.message := by
  induction probes with
  | nil => intro _ _; simp [serveLoop, responsesOf]
  | cons p ps ih =>
    intro run_count resp
    cases p with
    | none => simp [serveLoop, responsesOf]
    | some s =>
      cases hu : strcpy resp.url req.url.bytes with
      | none => simp [serveLoop, hu, responsesOf]
      | some u =>
        have := ih (wrap32 (run_count + 1))
          { resp with option := COMMAND, status := s, runs := wrap32 (run_count + 1), url := u }
        simp only [serveLoop, is_stop, Bool.false_eq_true, if_false, hu, responsesOf,
          List.map_cons, List.length_cons, List.replicate_succ, this]

/-- The run loop at iteration `N + 1` for `N = 2^31 - 1`. -/
theorem serveLoop_wrap_at (N : Nat) (hN : (N : Int) = 2147483647) (resp : Response) :
    ∃ r, (responsesOf (ServeRequest exampleRequest resp
        (List.replicate (N + 1) (some ⟨0⟩))))[N]? = some r ∧ r.runs = -2147483648 := by
  have hprobes : ∀ k, k ≤ N →
      ∃ s, (List.replicate (N + 1) (some (⟨0⟩ : Double)))[k]? = some (some s) := by
    intro k hk
    refine ⟨⟨0⟩, ?_⟩
    rw [List.getElem?_replicate, if_pos (by omega)]
  obtain ⟨r, hr, -, h2, -, -⟩ := serveLoop_response exampleRequest (by decide)
    (List.replicate (N + 1) (some ⟨0⟩)) 0 resp N hprobes
  refine ⟨r, ?_, ?_⟩
  · have hop : exampleRequest.op = 1 := rfl
    simp only [ServeRequest, hop, if_true]
    exact hr
  · rw [h2, hN]
    decide

/-- Every call `ServeRequest` records is a write of a Response to
`socket_fd[req.worker - 1][CHILD]`. -/
theorem serveLoop_writes (req : Request) (probes : List (Option Double)) :
    ∀ (run_count : Int) (resp : Response), ∀ e ∈ serveLoop req run_count resp probes,
      ∃ r, e = Effect.write (Fd.socket_fd (req.worker - 1) CHILD) (Payload.response r) := by
  induction probes with
  | nil => intro _ _ e he; simp [serveLoop] at he
  | cons p ps ih =>
    intro run_count resp e he
    cases p with
    | none => simp [serveLoop, is_stop] at he
    | some s =>
      cases hu : strcpy resp.url req.url.bytes with
      | none => simp [serveLoop, is_stop, hu] at he
      | some u =>
        simp only [serveLoop, is_stop, Bool.false_eq_true, if_false, hu, List.mem_cons] at he
        rcases he with he | he
        · exact ⟨_, he⟩
        · exact ih _ _ e he

theorem ServeRequest_writes (req : Request) (resp : Response)
    (probes : List (Option Double)) : ∀ e ∈ ServeRequest req resp probes,
      ∃ r, e = Effect.write (Fd.socket_fd (req.worker - 1) CHILD) (Payload.response r) := by
  intro e he
  by_cases h1 : req.op = 1
  · simp only [ServeRequest, h1, if_true] at he
    exact serveLoop_writes req probes 0 resp e he
  · by_cases h2 : req.op = 2
    · simp only [ServeRequest, h2] at he
      simp at he
      exact ⟨_, he⟩
    · simp [ServeRequest, h1, h2] at he

end AgentImplementation

/-! # Claims -/

namespace CoreImplementation

/-- C1 (admission control), the code at a sequence of 2^31 calls.  On an alive
connection in its initial state the first 2^31 - 1 calls write five Requests and
bring `running_job` to 2147483647; the `++running_job` of the next call wraps to
-2147483648, which is not above `MAX_AGENT_WORKER`, so that call returns 0 and
writes a sixth Request, with slot -2147483648. -/
theorem C1_sixth_request_after_wrap :
    ∃ a rs,
      Agent.sendAll ⟨1, 7, 0, true⟩ (List.replicate (2147483647 + 1) exampleJob) = some (a, rs)
      ∧ (writesOf rs).length = 6
      ∧ rs.getLast? = some ⟨⟨1, 7, -2147483648, true⟩, 0,
          [⟨7, ⟨1, paddedString exampleJob._url, -2147483648, 2⟩⟩]⟩ :=
  sendAll_wrap_at 2147483647 rfl

/-- C1 (admission control), as amended.  For every sequence of at most 2^31 - 1
calls of `SendReqToAgent` on one object starting with `running_job` = 0, with
urls that fit the url array: all the calls together write at most 5 Requests,
and every call made once 5 Requests have been written returns a non-zero status
and writes nothing. -/
theorem C1_admission_control (a : Agent) (jobs : List JobParser)
    (h0 : a.running_job = 0) (hlen : jobs.length ≤ 2147483647)
    (hfit : ∀ j ∈ jobs, j._url.length < STRING_LENGTH) :
    ∃ a1 rs, a.sendAll jobs = some (a1, rs)
      ∧ (writesOf rs).length ≤ 5
      ∧ ∀ i r, rs[i]? = some r → (writesOf (rs.take i)).length = 5 →
          r.ret ≠ 0 ∧ r.written = [] := by
  obtain ⟨id, fd, rj, al⟩ := a
  simp only at h0
  subst h0
  cases al with
  | false =>
    obtain ⟨rs, hrs, hw⟩ := sendAll_dead ⟨id, fd, 0, false⟩ rfl jobs
    refine ⟨_, rs, hrs, ?_, ?_⟩
    · have := hw rs.length
      rw [List.take_length] at this
      simp [this]
    · intro i r _ h5
      rw [hw i] at h5
      simp at h5
  | true =>
    have hrs := sendAll_alive id fd jobs 0 (by omega) hfit
    refine ⟨_, aliveResults id fd 0 jobs, hrs, ?_, ?_⟩
    · rw [writesOf_aliveResults_length]
      omega
    · intro i r hr h5
      rw [aliveResults_take, writesOf_aliveResults_length] at h5
      have hi : (jobs.take i).length ≤ i := by
        rw [List.length_take]; exact Nat.min_le_left _ _
      have := aliveResults_getElem id fd jobs 0 i r hr (by omega)
      exact ⟨by rw [this.1]; decide, this.2⟩

theorem C1_admission_control_witness :
    (∃ a1 rs, Agent.sendAll ⟨1, 7, 0, true⟩ (List.replicate 7 exampleJob) = some (a1, rs)
      ∧ (writesOf rs).length ≤ 5
      ∧ ∀ i r, rs[i]? = some r → (writesOf (rs.take i)).length = 5 →
          r.ret ≠ 0 ∧ r.written = [])
    ∧ (Agent.sendAll ⟨1, 7, 0, true⟩ (List.replicate 7 exampleJob)).map
          (fun p => p.2.map (fun r => (r.ret, r.written.map (fun w => w.request.worker))))
        = some [(0, [1]), (0, [2]), (0, [3]), (0, [4]), (0, [5]), (-1, []), (-1, [])] :=
  ⟨C1_admission_control ⟨1, 7, 0, true⟩ (List.replicate 7 exampleJob) rfl (by decide)
    (by decide), by decide⟩

end CoreImplementation

namespace CoreImplementation

/-- C2 (request construction).  For three agent objects in their initial state
and a job list of fewer than 2^31 jobs whose urls fit the url array,
`PushJobRequestsToAgent` issues exactly the writes of `claimedWrites`: the
`k`-th job of an alive agent, for `k` up to `MAX_AGENT_WORKER`, goes to that
agent's socket as a Request with opcode 1, slot `k`, the job's url and
frequency and every other byte zero; so every Request written has opcode 1 and
a slot in 1..MAX_AGENT_WORKER. -/
theorem C2_request_construction (agent : List Agent) (jobs : List JobParser)
    (hagents : agent.length = 3) (hinit : ∀ a ∈ agent, a.running_job = 0)
    (hjobs : jobs.length ≤ 2147483647)
    (hfit : ∀ j ∈ jobs, j._url.length < STRING_LENGTH) :
    ∃ agent1 ws, PushJobRequestsToAgent agent jobs = some (agent1, ws)
      ∧ ws = claimedWrites agent jobs
      ∧ ∀ w ∈ ws, w.request.op = 1 ∧ 1 ≤ w.request.worker
          ∧ w.request.worker ≤ MAX_AGENT_WORKER := by
  match agent, hagents with
  | [a1, a2, a3], _ =>
    have h1 : a1.running_job = 0 := hinit a1 (by simp)
    have h2 : a2.running_job = 0 := hinit a2 (by simp)
    have h3 : a3.running_job = 0 := hinit a3 (by simp)
    have hmain := pushLoop_claimed a1 a2 a3 h1 h2 h3 jobs []
      (by simp only [List.length_nil, Nat.zero_add]; omega) hfit
    simp only [afterJobs_nil, List.nil_append] at hmain
    have hw : wrap32 (jobs.length : Int) = jobs.length :=
      wrap32_of_range _ (by omega) (by omega)
    refine ⟨[afterJobs a1 1 jobs, afterJobs a2 2 jobs, afterJobs a3 3 jobs],
      claimedWrites [a1, a2, a3] jobs, ?_, rfl, ?_⟩
    · simp only [PushJobRequestsToAgent, hw, Int.toNat_ofNat, List.take_length]
      exact hmain
    · exact claimedWritesFrom_slots [a1, a2, a3] jobs []

theorem C2_request_construction_witness :
    (∃ agent1 ws, PushJobRequestsToAgent exampleAgents exampleJobs = some (agent1, ws)
      ∧ ws = claimedWrites exampleAgents exampleJobs
      ∧ ∀ w ∈ ws, w.request.op = 1 ∧ 1 ≤ w.request.worker
          ∧ w.request.worker ≤ MAX_AGENT_WORKER)
    ∧ (claimedWrites exampleAgents exampleJobs).map
          (fun w => (w.fd, w.request.worker, w.request.freq, cstr w.request.url.bytes))
        = [(11, 1, 10, ['a']), (11, 2, 20, ['b']), (11, 3, 40, ['d']), (11, 4, 60, ['f']),
           (13, 1, 70, ['g']), (11, 5, 80, ['h'])] :=
  ⟨C2_request_construction exampleAgents exampleJobs (by decide) (by decide) (by decide)
    (by decide), by decide⟩

end CoreImplementation

namespace AgentImplementation

/-- C3 (slot addressing), the code at slots 0 and below.  When the Request read
from Core has a slot of 0 or less, the test `req_core.worker <= g_worker` holds:
the only write is that Request to `socket_fd[worker - 1][PARENT]`, a row index
below 0, and no Response is written to the Core connection. -/
theorem C3_nonpositive_slot_forwarded (st : HandlerState) (core_poll : Int)
    (rd : ReadResult Request) (hpoll : core_poll ≠ 0) (hret : rd.ret > 0)
    (hslot : rd.data.worker ≤ 0) :
    coreFlow st core_poll rd
      = some ({ st with req_core := rd.data },
          [Effect.read Fd.conn,
           Effect.write (Fd.socket_fd (rd.data.worker - 1) PARENT) (Payload.request rd.data)])
    ∧ rd.data.worker - 1 < 0 := by
  have hle : rd.data.worker ≤ g_worker := by simp only [g_worker, MAX_AGENT_WORKER]; omega
  refine ⟨?_, by omega⟩
  simp only [coreFlow, hpoll, ne_eq, not_false_eq_true, if_true, ReadResult.store, hret, hle]

theorem C3_nonpositive_slot_forwarded_witness :
    coreFlow zeroState 1 ⟨140, { exampleRequest with worker := 0 }⟩
      = some ({ zeroState with req_core := { exampleRequest with worker := 0 } },
          [Effect.read Fd.conn,
           Effect.write (Fd.socket_fd (0 - 1) PARENT)
             (Payload.request { exampleRequest with worker := 0 })])
    ∧ (0 : Int) - 1 < 0 :=
  C3_nonpositive_slot_forwarded zeroState 1 ⟨140, { exampleRequest with worker := 0 }⟩
    (by decide) (by decide) (by decide)

end AgentImplementation

namespace AgentImplementation

/-- C4 (valid-slot routing).  When `CorePoll` reports the connection readable,
the `read` returns data and the Request's slot `s` is in 1..5, the Core-to-Worker
flow issues exactly one write: that Request, unchanged, to
`socket_fd[s - 1][PARENT]`, with `s - 1` a row of the table; no Response is
written to the Core connection. -/
theorem C4_valid_slot_routing (st : HandlerState) (core_poll : Int)
    (rd : ReadResult Request) (hpoll : core_poll ≠ 0) (hret : rd.ret > 0)
    (hlo : 1 ≤ rd.data.worker) (hhi : rd.data.worker ≤ MAX_AGENT_WORKER) :
    coreFlow st core_poll rd
      = some ({ st with req_core := rd.data },
          [Effect.read Fd.conn,
           Effect.write (Fd.socket_fd (rd.data.worker - 1) PARENT) (Payload.request rd.data)])
    ∧ 0 ≤ rd.data.worker - 1 ∧ rd.data.worker - 1 < MAX_AGENT_WORKER := by
  have hle : rd.data.worker ≤ g_worker := hhi
  refine ⟨?_, by omega, by omega⟩
  simp only [coreFlow, hpoll, ne_eq, not_false_eq_true, if_true, ReadResult.store, hret, hle]

theorem C4_valid_slot_routing_witness :
    coreFlow zeroState 1 ⟨140, { exampleRequest with worker := 3 }⟩
      = some ({ zeroState with req_core := { exampleRequest with worker := 3 } },
          [Effect.read Fd.conn,
           Effect.write (Fd.socket_fd (3 - 1) PARENT)
             (Payload.request { exampleRequest with worker := 3 })])
    ∧ (0 : Int) ≤ 3 - 1 ∧ (3 : Int) - 1 < MAX_AGENT_WORKER :=
  C4_valid_slot_routing zeroState 1 ⟨140, { exampleRequest with worker := 3 }⟩
    (by decide) (by decide) (by decide) (by decide)

end AgentImplementation

namespace AgentImplementation

/-- C5 (per-slot ordering), the code at the 2^31-th Response: after 2^31 - 1
Responses `run_count` is 2147483647 and `++run_count` wraps, so the Response of
iteration 2^31 carries `runs` = -2147483648, not 2147483648. -/
theorem C5_run_count_wraps :
    ∃ r, (responsesOf (ServeRequest exampleRequest Response.zero
        (List.replicate (2147483647 + 1) (some ⟨0⟩))))[2147483647]? = some r
      ∧ r.runs = -2147483648 :=
  serveLoop_wrap_at 2147483647 rfl Response.zero

/-- C5 (per-slot ordering), as amended.  For a RUN Request and `n` from 1 to
2^31 - 1, the `n`-th Response `ServeRequest` writes has option 1 (RESULT), `runs`
equal to `n` and holds the Request's url; and that Response is written whenever
the Request's url array holds a terminated string and the probe succeeds in the
first `n` iterations. -/
theorem C5_run_count_sequence (req : Request) (resp : Response)
    (probes : List (Option Double)) (n : Nat)
    (hop : req.op = 1) (hn1 : 1 ≤ n) (hn : n ≤ 2147483647) :
    (∀ r, (responsesOf (ServeRequest req resp probes))[n - 1]? = some r →
      r.option = 1 ∧ r.runs = n ∧ cstr r.url.bytes = cstr req.url.bytes)
    ∧ (NUL ∈ req.url.bytes → (∀ k, k < n → ∃ s, probes[k]? = some (some s)) →
        ∃ r, (responsesOf (ServeRequest req resp probes))[n - 1]? = some r) := by
  have hserve : ServeRequest req resp probes = serveLoop req 0 resp probes := by
    simp only [ServeRequest, hop, if_true]
  rw [hserve]
  refine ⟨fun r hr => ?_, fun hurl hprobes => ?_⟩
  · obtain ⟨h1, h2, h3⟩ := serveLoop_written req probes 0 resp (n - 1) r hr
    refine ⟨h1, ?_, h3⟩
    rw [h2]
    have : (0 : Int) + ((n - 1 : Nat) : Int) + 1 = n := by omega
    rw [this]
    exact wrap32_of_range _ (by omega) (by omega)
  · obtain ⟨r, hr, -⟩ := serveLoop_response req hurl probes 0 resp (n - 1)
      (fun k hk => hprobes k (by omega))
    exact ⟨r, hr⟩

theorem C5_run_count_sequence_witness :
    ((∀ r, (responsesOf (ServeRequest exampleRequest Response.zero
        [some ⟨1⟩, some ⟨2⟩, some ⟨3⟩, none]))[3 - 1]? = some r →
      r.option = 1 ∧ r.runs = ((3 : Nat) : Int)
        ∧ cstr r.url.bytes = cstr exampleRequest.url.bytes)
    ∧ (NUL ∈ exampleRequest.url.bytes →
        (∀ k, k < 3 → ∃ s, [some (⟨1⟩ : Double), some ⟨2⟩, some ⟨3⟩, none][k]? = some (some s)) →
        ∃ r, (responsesOf (ServeRequest exampleRequest Response.zero
          [some ⟨1⟩, some ⟨2⟩, some ⟨3⟩, none]))[3 - 1]? = some r))
    ∧ (responsesOf (ServeRequest exampleRequest Response.zero
          [some ⟨1⟩, some ⟨2⟩, some ⟨3⟩, none])).map (fun r => (r.option, r.runs, r.status))
        = [(1, 1, ⟨1⟩), (1, 2, ⟨2⟩), (1, 3, ⟨3⟩)] :=
  ⟨C5_run_count_sequence exampleRequest Response.zero [some ⟨1⟩, some ⟨2⟩, some ⟨3⟩, none] 3
    rfl (by decide) (by decide), by decide⟩

end AgentImplementation

namespace CoreImplementation

end CoreImplementation

namespace CoreImplementation

/-- C7 (unreachable agent).  On an object whose `is_alive` is false,
`SendReqToAgent` issues no write and returns the object unchanged, so
`running_job` and `is_alive` keep their values. -/
theorem C7_dead_agent_writes_nothing (a : Agent) (job : JobParser)
    (h : a.is_alive = false) :
    a.SendReqToAgent job = some ⟨a, 0, []⟩ :=
  send_dead a job h

theorem C7_dead_agent_writes_nothing_witness :
    Agent.SendReqToAgent ⟨2, 12, 0, false⟩ exampleJob = some ⟨⟨2, 12, 0, false⟩, 0, []⟩ :=
  C7_dead_agent_writes_nothing ⟨2, 12, 0, false⟩ exampleJob rfl

end CoreImplementation

namespace CoreImplementation

/-- C8 (saturating counter), the code at a sixth dispatch.  A call on an alive
object whose `running_job` is 5 is rejected (returns -1, writes nothing) and
leaves `running_job` at 6; six calls from the initial state reach that. -/
theorem C8_rejected_dispatch_increments :
    (∀ (id fd : Int) (job : JobParser),
      Agent.SendReqToAgent ⟨id, fd, 5, true⟩ job = some ⟨⟨id, fd, 6, true⟩, -1, []⟩)
    ∧ (Agent.sendAll ⟨1, 7, 0, true⟩ (List.replicate 6 exampleJob)).map
          (fun p => (p.1.running_job, p.2.map (fun r => r.ret), (writesOf p.2).length))
        = some (6, [0, 0, 0, 0, 0, -1], 5) := by
  refine ⟨fun id fd job => ?_, by decide⟩
  exact send_reject ⟨id, fd, 5, true⟩ job rfl (le_refl _) (by simp only; omega)

end CoreImplementation

namespace CoreImplementation

/-- C9 (result sink classification), the code on a message other than the
sentinel: the message of `otherMessageResponse` is not empty, yet the row is
printed and 0 returned. -/
theorem C9_other_message_is_printed :
    cstr otherMessageResponse.message.bytes ≠ []
    ∧ PushDataToFrontEnd otherMessageResponse
        = (0, [⟨"http://example.com".toList, ⟨0⟩, 4⟩]) := by
  decide

/-- C9 (result sink classification), as amended.  `PushDataToFrontEnd` returns
-1 and prints nothing exactly when the message array holds the text
`worker_not_present`; for every other message, empty or not, it prints the row
(url, status, runs) and returns 0. -/
theorem C9_sink_classification (resp : Response) :
    PushDataToFrontEnd resp
      = if cstr resp.message.bytes = "worker_not_present".toList then (-1, [])
        else (0, [⟨cstr resp.url.bytes, resp.status, resp.runs⟩]) := by
  have hiff := strcmpEq_c_str notPresentText (by decide) resp.message.bytes
    (by rw [resp.message.size_eq]; decide)
  unfold PushDataToFrontEnd
  by_cases h : strcmpEq resp.message.bytes (c_str notPresentText) = true
  · rw [if_pos h, if_pos (show cstr resp.message.bytes = "worker_not_present".toList from
      hiff.1 h)]
  · rw [if_neg h, if_neg (show ¬ cstr resp.message.bytes = "worker_not_present".toList from
      fun e => h (hiff.2 e))]

end CoreImplementation

namespace AgentImplementation

/-- C10 (empty message on success), the code on a non-zero local.  No statement
of `ServeRequest` writes `resp.message`: every Response of the run loop carries
the message the uninitialised local held on entry, so with a local whose message
array starts with `x` the RESULT Response carries the message `x`. -/
theorem C10_message_is_uninitialised :
    (∀ (req : Request) (resp : Response) (probes : List (Option Double)),
      (responsesOf (ServeRequest req resp probes)).map (fun r => r.message)
        = List.replicate (responsesOf (ServeRequest req resp probes)).length resp.message)
    ∧ (responsesOf (ServeRequest exampleRequest staleResponse [some ⟨0⟩])).map
          (fun r => (r.option, r.runs, cstr r.message.bytes))
        = [(1, 1, ['x'])] := by
  refine ⟨fun req resp probes => ?_, by decide⟩
  by_cases h1 : req.op = 1
  · simp only [ServeRequest, h1, if_true]
    exact serveLoop_message req probes 0 resp
  · by_cases h2 : req.op = 2
    · simp [ServeRequest, h2, responsesOf]
    · simp [ServeRequest, h1, h2, responsesOf]

end AgentImplementation

namespace AgentImplementation

/-- C11 (hang-up handling), the code on three poll results.  A Worker channel
that reports hang-up is closed, and its table entry still names the closed
descriptor with `POLLIN` registered; a channel that reports hang-up above the
first readable one is not closed by that call; and in Core the socket closed in
one iteration is passed to `poll` again in the next. -/
theorem C11_closed_entry_stays_in_table :
    (WorkerPoll (pollResult initialTable [POLLHUP, 0, 0, 0, 0, 0])).closed
        = [Fd.socket_fd 0 PARENT]
    ∧ (WorkerPoll (pollResult initialTable [POLLHUP, 0, 0, 0, 0, 0])).poll_fd.head?
        = some ⟨Fd.socket_fd 0 PARENT, POLLIN, POLLHUP⟩
    ∧ WorkerPoll (pollResult initialTable [POLLIN, POLLHUP, 0, 0, 0, 0])
        = ⟨pollResult initialTable [POLLIN, POLLHUP, 0, 0, 0, 0], 1, []⟩
    ∧ ((CoreImplementation.CoreHandler CoreImplementation.connectedAgents
          CoreImplementation.exampleState [POLLHUP, 0, 0] ⟨0, Response.zero⟩).bind
        (fun r => (CoreImplementation.CoreHandler CoreImplementation.connectedAgents r.1
          [POLLNVAL, 0, 0] ⟨0, Response.zero⟩).map (fun r2 => (r.2, r2.2))))
        = some ([CoreImplementation.CoreEffect.poll [11, 12, 13],
                  CoreImplementation.CoreEffect.close 11],
                [CoreImplementation.CoreEffect.poll [11, 12, 13]]) := by
  decide

/-- C11 (hang-up handling), as amended.  `WorkerPoll`, `AgentPoll` and
`CorePoll` leave the poll table as it was.  Every entry `WorkerPoll` or
`AgentPoll` examines, that is every entry below the first one that reports
readable without hang-up (all slots when there is none), has its descriptor
closed when it reports hang-up; `CorePoll` closes the Core connection when it
reports hang-up and returns 0. -/
theorem C11_hangup_closes_examined (poll_fd : List (PollFd Fd))
    (core_fd : List (PollFd Int)) :
    ((WorkerPoll poll_fd).poll_fd = poll_fd
      ∧ ∀ p ∈ belowFirstReady (poll_fd.take g_worker.toNat), hangup p.revents = true →
          p.fd ∈ (WorkerPoll poll_fd).closed)
    ∧ ((CoreImplementation.AgentPoll core_fd).poll_fd = core_fd
      ∧ ∀ p ∈ belowFirstReady (core_fd.take MAX_AGENT.toNat), hangup p.revents = true →
          p.fd ∈ (CoreImplementation.AgentPoll core_fd).closed)
    ∧ ∀ p, poll_fd[g_worker.toNat]? = some p → hangup p.revents = true →
        CorePoll poll_fd = some ⟨poll_fd, 0, [p.fd]⟩ := by
  refine ⟨⟨rfl, fun p hp hh => ?_⟩, ⟨rfl, fun p hp hh => ?_⟩, fun p hp hh => ?_⟩
  · simp only [WorkerPoll, pollLoop_eq]
    exact mem_closableFds_of_hangup _ p hp hh
  · simp only [CoreImplementation.AgentPoll, pollLoop_eq]
    exact mem_closableFds_of_hangup _ p hp hh
  · simp only [CorePoll, hp, hangup_ne_zero p.revents hh, ne_eq, not_false_eq_true, if_true, hh]

theorem C11_hangup_closes_examined_witness :
    Fd.socket_fd 1 PARENT ∈ (WorkerPoll (pollResult initialTable [0, POLLHUP, POLLIN, 0, 0, 0])).closed
    ∧ CorePoll (pollResult initialTable [0, 0, 0, 0, 0, POLLHUP])
        = some ⟨pollResult initialTable [0, 0, 0, 0, 0, POLLHUP], 0, [Fd.conn]⟩ :=
  ⟨(C11_hangup_closes_examined (pollResult initialTable [0, POLLHUP, POLLIN, 0, 0, 0]) []).1.2
      ⟨Fd.socket_fd 1 PARENT, POLLIN, POLLHUP⟩ (by decide) (by decide),
   (C11_hangup_closes_examined (pollResult initialTable [0, 0, 0, 0, 0, POLLHUP]) []).2.2
      ⟨Fd.conn, POLLIN, POLLHUP⟩ (by decide) (by decide)⟩

end AgentImplementation

namespace CoreImplementation

/-- C12 (Core reads every readable socket), the code with two readable sockets:
sockets 11 and 12 both report `POLLIN`, and the iteration reads socket 11 only. -/
theorem C12_second_readable_not_read :
    (CoreHandler connectedAgents exampleState [POLLIN, POLLIN, 0] ⟨272, exampleResult⟩).map
        (fun r => readsOf r.2)
      = some [11] := by
  decide

/-- C12 (Core reads every readable socket), as amended.  In an iteration of
`CoreHandler` in which entry `i` is the lowest-index entry that reports readable
without hang-up, exactly one `read` is issued, on the socket of agent `i`; no
other socket is read in that iteration. -/
theorem C12_lowest_ready_socket_read (agents : List Agent) (st : CoreState)
    (revents : List Nat) (rd : ReadResult Response) (i : Nat) (p : PollFd Int) (a : Agent)
    (hi : ((pollResult st.poll_fd revents).take MAX_AGENT.toNat)[i]? = some p)
    (hr : readable p.revents = true) (hh : hangup p.revents = false)
    (hfirst : ∀ k q, k < i →
      ((pollResult st.poll_fd revents).take MAX_AGENT.toNat)[k]? = some q →
      ready q = false)
    (ha : agents[i]? = some a) :
    ∃ st1 effs, CoreHandler agents st revents rd = some (st1, effs)
      ∧ readsOf effs = [a.sock_fd] := by
  have h := CoreHandler_ready agents st revents rd i p a hi (by simp [ready, hr, hh]) hfirst ha
  refine ⟨_, _, h, ?_⟩
  rw [readsOf_append]
  simp only [readsOf, readsOf_closes, List.nil_append]

theorem C12_lowest_ready_socket_read_witness :
    ∃ st1 effs, CoreHandler connectedAgents exampleState [POLLHUP, POLLIN, POLLIN]
        ⟨272, exampleResult⟩ = some (st1, effs)
      ∧ readsOf effs = [(⟨2, 12, 1, true⟩ : Agent).sock_fd] :=
  C12_lowest_ready_socket_read connectedAgents exampleState [POLLHUP, POLLIN, POLLIN]
    ⟨272, exampleResult⟩ 1 ⟨12, POLLIN, POLLIN⟩ ⟨2, 12, 1, true⟩ (by decide) (by decide)
    (by decide)
    (fun k q hk hq => by
      interval_cases k
      simp [pollResult, exampleState, MAX_AGENT] at hq
      subst hq
      decide)
    (by decide)

end CoreImplementation

namespace CoreImplementation

/-- C13 (failed reads are discarded), the code on a failed read.  In an
iteration in which entry `i` is the first ready one and the `read` returns a
negative value, `response` keeps what it held and `PushDataToFrontEnd` is still
called, once, with that earlier Response. -/
theorem C13_failed_read_still_pushed (agents : List Agent) (st : CoreState)
    (revents : List Nat) (rd : ReadResult Response) (i : Nat) (p : PollFd Int) (a : Agent)
    (hi : ((pollResult st.poll_fd revents).take MAX_AGENT.toNat)[i]? = some p)
    (hr : readable p.revents = true) (hh : hangup p.revents = false)
    (hfirst : ∀ k q, k < i →
      ((pollResult st.poll_fd revents).take MAX_AGENT.toNat)[k]? = some q →
      ready q = false)
    (ha : agents[i]? = some a) (hfail : rd.ret < 0) :
    ∃ st1 effs, CoreHandler agents st revents rd = some (st1, effs)
      ∧ st1.response = st.response
      ∧ pushedOf effs = [st.response]
      ∧ CoreEffect.frontEnd st.response (PushDataToFrontEnd st.response).2 ∈ effs := by
  have h := CoreHandler_ready agents st revents rd i p a hi (by simp [ready, hr, hh]) hfirst ha
  have hstore : rd.store st.response = st.response := by
    simp only [ReadResult.store]
    rw [if_neg (by omega)]
  rw [hstore] at h
  refine ⟨_, _, h, rfl, ?_, ?_⟩
  · rw [pushedOf_append]
    simp only [pushedOf, pushedOf_closes, List.nil_append]
  · simp

theorem C13_failed_read_still_pushed_witness :
    (∃ st1 effs, CoreHandler connectedAgents exampleState [POLLIN, 0, 0] ⟨-1, Response.zero⟩
        = some (st1, effs)
      ∧ st1.response = exampleState.response
      ∧ pushedOf effs = [exampleState.response]
      ∧ CoreEffect.frontEnd exampleState.response
          (PushDataToFrontEnd exampleState.response).2 ∈ effs)
    ∧ (PushDataToFrontEnd exampleState.response).2 = [⟨"http://example.com".toList, ⟨0⟩, 4⟩] :=
  ⟨C13_failed_read_still_pushed connectedAgents exampleState [POLLIN, 0, 0]
    ⟨-1, Response.zero⟩ 0 ⟨11, POLLIN, POLLIN⟩ ⟨1, 11, 1, true⟩ (by decide) (by decide)
    (by decide) (fun k q hk _ => absurd hk (Nat.not_lt_zero k)) (by decide) (by decide),
   by decide⟩

end CoreImplementation

namespace AgentImplementation

/-- C14 (round-trip encoding).  For a Request and a Response whose `int32_t`
fields are in range, whose `double` is a 64-bit pattern and whose characters are
bytes, the wire image has `sizeof` bytes (140 and 272) and reading it back gives
the same record; the arrays are carried whole, so a string of 127 characters
and its terminator come back unchanged. -/
theorem C14_wire_roundtrip (req : Request) (resp : Response)
    (hreq : req.valid) (hresp : resp.valid) :
    req.image.length = 140 ∧ Request.ofImage req.image = some req
    ∧ resp.image.length = 272 ∧ Response.ofImage resp.image = some resp :=
  ⟨request_image_length req, request_roundtrip req hreq,
    response_image_length resp, response_roundtrip resp hresp⟩

set_option maxRecDepth 100000 in
theorem C14_wire_roundtrip_witness :
    (boundaryRequest.image.length = 140
      ∧ Request.ofImage boundaryRequest.image = some boundaryRequest
      ∧ boundaryResponse.image.length = 272
      ∧ Response.ofImage boundaryResponse.image = some boundaryResponse)
    ∧ (cstr boundaryRequest.url.bytes).length = 127
    ∧ int32Image boundaryRequest.freq = [249, 255, 255, 255] :=
  ⟨C14_wire_roundtrip boundaryRequest boundaryResponse
      ⟨by decide, by decide, by decide, by decide⟩
      ⟨by decide, by decide, by decide, by decide, by decide⟩,
   by decide, by decide⟩

end AgentImplementation

namespace AgentImplementation

/-- C15 (readiness classification and tie-break).  With `i` the smallest slot
index whose entry reports readable without hang-up, `WorkerPoll` returns
`i + 1` and closes exactly the descriptors of the entries below `i` that have
non-zero `revents` and report hang-up or neither readable nor invalid; entries
from `i` on are not touched.  When no slot is such an entry it returns 0 and
closes those descriptors among all slots.  The entry it reports never reports
hang-up, and the table is left as it was. -/
theorem C15_worker_poll_classification (poll_fd : List (PollFd Fd)) :
    (∀ (i : Nat) (p : PollFd Fd), (poll_fd.take g_worker.toNat)[i]? = some p →
        readable p.revents = true → hangup p.revents = false →
        (∀ k q, k < i → (poll_fd.take g_worker.toNat)[k]? = some q →
          ¬ (readable q.revents = true ∧ hangup q.revents = false)) →
        (WorkerPoll poll_fd).ret = (i : Int) + 1
        ∧ (WorkerPoll poll_fd).closed = closableFds ((poll_fd.take g_worker.toNat).take i))
    ∧ ((∀ p ∈ poll_fd.take g_worker.toNat,
          ¬ (readable p.revents = true ∧ hangup p.revents = false)) →
        (WorkerPoll poll_fd).ret = 0
        ∧ (WorkerPoll poll_fd).closed = closableFds (poll_fd.take g_worker.toNat))
    ∧ (∀ i : Nat, (WorkerPoll poll_fd).ret = (i : Int) + 1 →
        ∃ p, (poll_fd.take g_worker.toNat)[i]? = some p
          ∧ readable p.revents = true ∧ hangup p.revents = false)
    ∧ (WorkerPoll poll_fd).poll_fd = poll_fd := by
  have hloop := pollLoop_eq (poll_fd.take g_worker.toNat) 0
  have hret1 : (WorkerPoll poll_fd).ret = (pollLoop 0 (poll_fd.take g_worker.toNat)).1 := rfl
  have hcl1 : (WorkerPoll poll_fd).closed = (pollLoop 0 (poll_fd.take g_worker.toNat)).2 := rfl
  have hnot : ∀ q : PollFd Fd, ¬ (readable q.revents = true ∧ hangup q.revents = false) →
      ready q = false := by
    intro q hq
    cases h1 : readable q.revents <;> cases h2 : hangup q.revents <;> simp_all [ready]
  refine ⟨fun i p hi hr hh hfirst => ?_, fun hnone => ?_, fun i hret => ?_, rfl⟩
  · have hf := firstReady_eq_some _ i p hi (by simp [ready, hr, hh])
      (fun k q hk hq => hnot q (hfirst k q hk hq))
    rw [hf, belowFirstReady_of_first _ i hf] at hloop
    rw [hret1, hcl1, hloop]
    exact ⟨by show (0 : Int) + (i : Int) + 1 = (i : Int) + 1; omega, rfl⟩
  · have hf := firstReady_eq_none (poll_fd.take g_worker.toNat)
      (fun p hp => hnot p (hnone p hp))
    rw [hf, belowFirstReady_of_none _ hf] at hloop
    rw [hret1, hcl1, hloop]
    exact ⟨rfl, rfl⟩
  · rw [hret1, hloop] at hret
    cases hf : firstReady (poll_fd.take g_worker.toNat) with
    | none =>
      rw [hf] at hret
      have h0 : (0 : Int) = (i : Int) + 1 := hret
      omega
    | some j =>
      rw [hf] at hret
      have h0 : (0 : Int) + (j : Int) + 1 = (i : Int) + 1 := hret
      have hij : j = i := by omega
      subst hij
      obtain ⟨p, hp, hr⟩ := firstReady_some_ready _ j hf
      refine ⟨p, hp, ?_⟩
      simpa [ready] using hr

theorem C15_worker_poll_classification_witness :
    ((WorkerPoll (pollResult initialTable [POLLHUP + POLLIN, POLLNVAL, 8, POLLIN, POLLIN, 0])).ret
        = ((3 : Nat) : Int) + 1
      ∧ (WorkerPoll (pollResult initialTable
            [POLLHUP + POLLIN, POLLNVAL, 8, POLLIN, POLLIN, 0])).closed
          = closableFds (((pollResult initialTable
              [POLLHUP + POLLIN, POLLNVAL, 8, POLLIN, POLLIN, 0]).take g_worker.toNat).take 3))
    ∧ closableFds (((pollResult initialTable
          [POLLHUP + POLLIN, POLLNVAL, 8, POLLIN, POLLIN, 0]).take g_worker.toNat).take 3)
        = [Fd.socket_fd 0 PARENT, Fd.socket_fd 2 PARENT] :=
  ⟨(C15_worker_poll_classification
      (pollResult initialTable [POLLHUP + POLLIN, POLLNVAL, 8, POLLIN, POLLIN, 0])).1
      3 ⟨Fd.socket_fd 3 PARENT, POLLIN, POLLIN⟩ (by decide) (by decide) (by decide)
      (fun k q hk hq => by
        interval_cases k <;> simp [pollResult, initialTable, g_worker, MAX_AGENT_WORKER] at hq
          <;> subst hq <;> decide),
   by decide⟩

end AgentImplementation

namespace AgentImplementation

/-- C16 (routing-error sentinel agreement).  When the Request read from Core has
a slot above `g_worker`, the Core-to-Worker flow writes one Response to the Core
connection: the local `resp_core` with the text `worker_not_present` copied into
its message and every other field as it was; `PushDataToFrontEnd` returns -1 on
that Response and prints nothing. -/
theorem C16_sentinel_agreement (st : HandlerState) (core_poll : Int)
    (rd : ReadResult Request) (hpoll : core_poll ≠ 0) (hret : rd.ret > 0)
    (hslot : rd.data.worker > g_worker) :
    ∃ message,
      coreFlow st core_poll rd
        = some (⟨{ st.resp_core with message := message }, rd.data⟩,
            [Effect.read Fd.conn,
             Effect.write Fd.conn (Payload.response { st.resp_core with message := message })])
      ∧ cstr message.bytes = "worker_not_present".toList
      ∧ CoreImplementation.PushDataToFrontEnd { st.resp_core with message := message }
          = (-1, []) := by
  have hnul : NUL ∉ notPresentText := by decide
  have hc : cstr (c_str notPresentText) = notPresentText := by
    have := cstr_append_NUL notPresentText [] hnul
    simpa [c_str] using this
  obtain ⟨m, hm, hcm⟩ := strcpy_some st.resp_core.message (c_str notPresentText)
    (NUL_mem_c_str _) (by rw [hc]; decide)
  rw [hc] at hcm
  refine ⟨m, ?_, hcm, CoreImplementation.pushData_of_sentinel _ hcm⟩
  have hgt : ¬ rd.data.worker ≤ g_worker := by omega
  simp only [coreFlow, hpoll, ne_eq, not_false_eq_true, if_true, ReadResult.store, hret, hgt,
    if_false, hm]

theorem C16_sentinel_agreement_witness :
    ∃ message,
      coreFlow relayedState 1 ⟨140, { exampleRequest with worker := 6 }⟩
        = some (⟨{ relayedState.resp_core with message := message },
              { exampleRequest with worker := 6 }⟩,
            [Effect.read Fd.conn,
             Effect.write Fd.conn
               (Payload.response { relayedState.resp_core with message := message })])
      ∧ cstr message.bytes = "worker_not_present".toList
      ∧ CoreImplementation.PushDataToFrontEnd { relayedState.resp_core with message := message }
          = (-1, []) :=
  C16_sentinel_agreement relayedState 1 ⟨140, { exampleRequest with worker := 6 }⟩
    (by decide) (by decide) (by decide)

end AgentImplementation

namespace AgentImplementation

/-- C17 (Worker replies on its own channel).  A Request the Core-to-Worker flow
forwards with a slot in 1..5 is written to `socket_fd[j][PARENT]` only for
`j` = slot - 1; the Worker of slot index `j`, reading it from
`socket_fd[j][CHILD]`, addresses `socket_fd[req.worker - 1][CHILD]`, so every
call it issues is its `read` on, or a `write` of a Response to, the child end of
channel `j`. -/
theorem C17_worker_replies_on_own_channel (st : HandlerState) (core_poll : Int)
    (rdCore : ReadResult Request) (st1 : HandlerState) (effs : List Effect)
    (hlo : 1 ≤ rdCore.data.worker) (hhi : rdCore.data.worker ≤ MAX_AGENT_WORKER)
    (hflow : coreFlow st core_poll rdCore = some (st1, effs))
    (j : Int) (req : Request)
    (hfwd : Effect.write (Fd.socket_fd j PARENT) (Payload.request req) ∈ effs)
    (req_worker : Request) (rd : ReadResult Request) (resp : Response)
    (probes : List (Option Double)) (hrd : rd.ret > 0) (hdata : rd.data = req) :
    req.worker - 1 = j ∧ 0 ≤ j ∧ j < MAX_AGENT_WORKER
    ∧ ∀ e ∈ (InitReqHandler j req_worker rd resp probes).2,
        e = Effect.read (Fd.socket_fd j CHILD)
        ∨ ∃ r, e = Effect.write (Fd.socket_fd j CHILD) (Payload.response r) := by
  have hle : rdCore.data.worker ≤ g_worker := hhi
  have hkey : j = rdCore.data.worker - 1 ∧ req = rdCore.data := by
    by_cases hp : core_poll = 0
    · simp only [coreFlow, hp, ne_eq, not_true_eq_false, if_false, Option.some.injEq,
        Prod.mk.injEq] at hflow
      rw [← hflow.2] at hfwd
      simp at hfwd
    · by_cases hr : rdCore.ret > 0
      · simp only [coreFlow, hp, ne_eq, not_false_eq_true, if_true, ReadResult.store, hr, hle,
          Option.some.injEq, Prod.mk.injEq] at hflow
        rw [← hflow.2] at hfwd
        simp only [List.mem_cons, List.mem_singleton, Effect.write.injEq, Fd.socket_fd.injEq,
          Payload.request.injEq, List.mem_nil_iff, or_false, false_or, reduceCtorEq] at hfwd
        exact ⟨hfwd.1.1, hfwd.2⟩
      · simp only [coreFlow, hp, ne_eq, not_false_eq_true, if_true, hr, if_false,
          Option.some.injEq, Prod.mk.injEq] at hflow
        rw [← hflow.2] at hfwd
        simp at hfwd
  obtain ⟨hj, hreq⟩ := hkey
  have hw : req.worker = rdCore.data.worker := by rw [hreq]
  refine ⟨by omega, by omega, by simp only [MAX_AGENT_WORKER] at hhi ⊢; omega, ?_⟩
  intro e he
  have hstore : rd.store req_worker = req := by
    simp only [ReadResult.store, hrd, if_true, hdata]
  simp only [InitReqHandler, hstore, List.mem_cons] at he
  rcases he with he | he
  · exact Or.inl he
  · right
    obtain ⟨r, hr⟩ := ServeRequest_writes req resp probes e he
    rw [hj, ← hw]
    exact ⟨r, hr⟩

theorem C17_worker_replies_on_own_channel_witness :
    ({ exampleRequest with worker := 3 } : Request).worker - 1 = 2 ∧ (0 : Int) ≤ 2
    ∧ (2 : Int) < MAX_AGENT_WORKER
    ∧ ∀ e ∈ (InitReqHandler 2 Request.zero ⟨140, { exampleRequest with worker := 3 }⟩
          Response.zero [some ⟨1⟩, some ⟨2⟩]).2,
        e = Effect.read (Fd.socket_fd 2 CHILD)
        ∨ ∃ r, e = Effect.write (Fd.socket_fd 2 CHILD) (Payload.response r) :=
  C17_worker_replies_on_own_channel zeroState 1 ⟨140, { exampleRequest with worker := 3 }⟩
    ⟨Response.zero, { exampleRequest with worker := 3 }⟩
    [Effect.read Fd.conn,
     Effect.write (Fd.socket_fd 2 PARENT) (Payload.request { exampleRequest with worker := 3 })]
    (by decide) (by decide) rfl 2 { exampleRequest with worker := 3 } (by decide)
    Request.zero ⟨140, { exampleRequest with worker := 3 }⟩ Response.zero
    [some ⟨1⟩, some ⟨2⟩] (by decide) rfl

end AgentImplementation

end SyntheticWebMonitoring
